import Mathlib

/-!
# Artifact store of podman (`pkg/libartifact/store/store.go`)

A shallow embedding of the local OCI artifact store: the index file, the
content-addressed blob pool, the manifest resolver `getManifests`, and the
operations `NewArtifactStore`, `Add`, `Remove`, `Inspect`, `List`.

Go values `(result, err)` are embedded as `Except Error result`, except for
`getManifests`, whose pair of results is kept as a pair so that the shape of
the value returned next to an error can be stated.  Recursion that Go does
not bound is driven by a fuel argument; `none` means the fuel ran out.
-/

namespace Podman

/-! ## Data model -/

/-- Raw file contents. -/
abbrev Bytes := List Nat

/-- Content digest, `digest.Digest` in Go (a string `algorithm:hex`). -/
abbrev Digest := String

/-- Go `error` values met in the store. -/
inductive Error where
  | emptyArtifactName
  | alreadyExists (dest : String)
  | notFound (nameOrDigest : String)
  | external (msg : String)
  deriving DecidableEq, Repr

/-- The variable `ErrEmptyArtifactName` of `store.go`. -/
def ErrEmptyArtifactName : Error := Error.emptyArtifactName

/-- Content descriptor, `specV1.Descriptor`; the annotation map is an association list. -/
structure Descriptor where
  mediaType : String
  digest : Digest
  size : Int
  annotations : List (String × String)
  deriving DecidableEq, Repr

/-- Content manifest, `specV1.Manifest` (wrapped unchanged by `manifest.OCI1`). -/
structure Manifest where
  schemaVersion : Nat
  mediaType : String
  artifactType : String
  config : Descriptor
  layers : List Descriptor
  deriving DecidableEq, Repr

/-- The type `manifest.OCI1`. -/
abbrev OCI1 := Manifest

/-- Manifest index, `specV1.Index`: the store index and nested manifest lists. -/
structure Index where
  schemaVersion : Nat
  mediaType : String
  manifests : List Descriptor
  deriving DecidableEq, Repr

/-- The zero value `specV1.Index{}`. -/
def Index.zero : Index := { schemaVersion := 0, mediaType := "", manifests := [] }

def MediaTypeImageManifest : String := "application/vnd.oci.image.manifest.v1+json"
def MediaTypeImageIndex : String := "application/vnd.oci.image.index.v1+json"
def DockerV2ListMediaType : String := "application/vnd.docker.distribution.manifest.list.v2+json"
def AnnotationTitle : String := "org.opencontainers.image.title"
def AnnotationRefName : String := "org.opencontainers.image.ref.name"
def AnnotatedName : String := "org.opencontainers.image.ref.name"
def DefaultMime : String := "application/octet-stream"
def indexName : String := "index.json"
def emptyStanza : Bytes := [123, 125]

/-- The shared empty-config descriptor `specV1.DescriptorEmptyJSON`. -/
def DescriptorEmptyJSON : Descriptor :=
  { mediaType := "application/vnd.oci.empty.v1+json"
    digest := "sha256:44136fa355b3678a1146ad16f7e8649e94fb4fc21fe77e8310c060f61caaff8a"
    size := 2
    annotations := [] }

/-- The predicate `manifest.MIMETypeIsMultiImage`. -/
def MIMETypeIsMultiImage (mimeType : String) : Bool :=
  mimeType == DockerV2ListMediaType || mimeType == MediaTypeImageIndex

/-- The codecs and the digest function the store calls; they are libraries
outside the store, so they are parameters of the embedding. -/
structure Env where
  /-- The function `digest.FromBytes`. -/
  digestFromBytes : Bytes → Digest
  /-- The call `json.Marshal` on a manifest. -/
  marshalManifest : Manifest → Except Error Bytes
  /-- The call `json.Marshal` on an index. -/
  marshalIndex : Index → Except Error Bytes
  /-- The call `json.Unmarshal` into an index. -/
  unmarshalIndex : Bytes → Except Error Index
  /-- The decoder `manifest.OCI1FromManifest`. -/
  OCI1FromManifest : Bytes → Except Error OCI1
  /-- The decoder `manifest.OCI1IndexFromManifest`. -/
  OCI1IndexFromManifest : Bytes → Except Error Index
  /-- Whether a string parses as a valid content digest (`digest.Parse`). -/
  parseDigest : String → Bool
  /-- The check `ValidateImageName` made by `layout.NewReference`. -/
  validImageName : String → Bool
  /-- The function `manifest.GuessMIMEType`. -/
  guessMIMEType : Bytes → String
  /-- Reading a local input file: its bytes, or the error of opening or reading it. -/
  readLocalFile : String → Except Error Bytes
  /-- The graph root of `storage.DefaultStoreOptions`. -/
  defaultGraphRoot : Except Error String
  /-- Failure of `os.MkdirAll` on the store directory, if any. -/
  mkdirAllErr : Option Error
  /-- Failure of `os.Stat` on the index file other than "does not exist", if any. -/
  statIndexErr : Option Error
  /-- Failure of `os.WriteFile` on the index file, if any. -/
  writeIndexErr : Option Error
  /-- When `os.WriteFile` on the index file fails: how many bytes had been
  written to the truncated file by then, or `none` when the file could not
  even be opened and so is left as it was. -/
  writeIndexWritten : Option Nat
  /-- Whether an input of `GetByNameOrDigest` designates the given manifest
  digest (the spec speaks of "a manifest digest match" and leaves the form of
  the input open). -/
  digestMatches : Digest → String → Bool
  /-- The result of `Artifact.GetDigest` on an artifact that has no leaf
  manifest or several, which the spec does not describe. -/
  digestOfOther : List OCI1 → Except Error Digest
  /-- Failure of writing a blob file with the given contents, if any. -/
  writeBlobErr : Bytes → Option Error

/-- The interface `types.ImageSource`, restricted to the method the store calls. -/
structure ImageSource where
  GetManifest : Option Digest → Except Error (Bytes × String)

/-! ## Manifest resolver -/

/-- The `for _, m := range maniList.Manifests` loop of `getManifests`; `resolve`
is the recursive call and `manifests` the slice accumulated so far. -/
def getManifestsLoop (resolve : Option Digest → Option (List OCI1 × Option Error)) :
    List Descriptor → List OCI1 → Option (List OCI1 × Option Error)
  | [], manifests => some (manifests, none)
  | m :: rest, manifests =>
    match resolve (some m.digest) with
    | none => none
    | some (_, some err) => some ([], some err)
    | some (iterManifests, none) => getManifestsLoop resolve rest (manifests ++ iterManifests)

/-- The function `getManifests`: the Go pair `(manifests, err)` it returns, or
`none` when `fuel` nested calls were not enough. -/
def getManifests (env : Env) :
    Nat → ImageSource → Option Digest → Option (List OCI1 × Option Error)
  | 0, _, _ => none
  | fuel + 1, imgSrc, startingDigest =>
    match imgSrc.GetManifest startingDigest with
    | .error err => some ([], some err)
    | .ok (b, manifestType) =>
      if !MIMETypeIsMultiImage manifestType then
        match env.OCI1FromManifest b with
        | .error err => some ([], some err)
        | .ok mani => some ([] ++ [mani], none)
      else
        match env.OCI1IndexFromManifest b with
        | .error err => some ([], some err)
        | .ok maniList => getManifestsLoop (getManifests env fuel imgSrc) maniList.manifests []

/-! ## The store directory and the OCI layout library -/

/-- State of the directory at the store path: whether it exists, the contents
of `index.json`, and the files `blobs/<algorithm>/<encoded>`. -/
structure StoreDir where
  present : Bool
  index : Option Bytes
  blobs : String × String → Option Bytes

/-- The method `Digest.Algorithm`: the part before the first colon. -/
def Digest.Algorithm (d : Digest) : String :=
  String.mk (d.toList.takeWhile (fun c => c != ':'))

/-- The method `Digest.Encoded`: the part after the first colon. -/
def Digest.Encoded (d : Digest) : String :=
  String.mk ((d.toList.dropWhile (fun c => c != ':')).drop 1)

/-- Write one blob file, other files unchanged. -/
def StoreDir.writeBlob (dir : StoreDir) (key : String × String) (b : Bytes) : StoreDir :=
  { dir with blobs := fun k => if k = key then some b else dir.blobs k }

/-- The function `filepath.Base` on slash-separated paths. -/
def filepathBase (path : String) : String :=
  if path = "" then "." else
  let stripped := (path.toList.reverse.dropWhile (fun c => c == '/'))
  let last := (stripped.takeWhile (fun c => c != '/')).reverse
  if last = [] then "/" else String.mk last

namespace layout

/-- A layout reference: directory-relative image name and index position (`-1`: none). -/
structure Reference where
  image : String
  sourceIndex : Int
  deriving DecidableEq, Repr

/-- An element of the slice `layout.List` returns. -/
structure ListResult where
  Reference : Reference
  ManifestDescriptor : Descriptor
  deriving DecidableEq, Repr

/-- The path of a blob, `ociReference.blobPath`: the digest must validate. -/
def blobPath (env : Env) (d : Digest) : Except Error (String × String) :=
  if env.parseDigest d then .ok (d.Algorithm, d.Encoded)
  else .error (.external "unexpected digest reference")

/-- The constructor `newReference` of the layout library. -/
def newReference (env : Env) (image : String) (sourceIndex : Int) : Except Error Reference :=
  if env.validImageName image then .ok { image := image, sourceIndex := sourceIndex }
  else .error (.external "invalid image name")

/-- The function `layout.NewReference`. -/
def NewReference (env : Env) (image : String) : Except Error Reference :=
  newReference env image (-1)

/-- The method `ociReference.getIndex`: read and decode `index.json`. -/
def getIndex (env : Env) (dir : StoreDir) : Except Error Index :=
  match dir.index with
  | none => .error (.external "index.json: no such file or directory")
  | some rawData => env.unmarshalIndex rawData

/-- The body of the loop of `layout.List` from manifest position `i` on. -/
def listFrom (env : Env) : Nat → List Descriptor → Except Error (List ListResult)
  | _, [] => .ok []
  | i, md :: rest =>
    let refName := (md.annotations.lookup AnnotationRefName).getD ""
    let index : Int := if refName = "" then (i : Int) else -1
    match newReference env refName index with
    | .error err => .error err
    | .ok ref =>
      match listFrom env (i + 1) rest with
      | .error err => .error err
      | .ok res => .ok ({ Reference := ref, ManifestDescriptor := md } :: res)

/-- The function `layout.List`: one result per manifest of the index, in order. -/
def ListLayout (env : Env) (dir : StoreDir) : Except Error (List ListResult) :=
  match getIndex env dir with
  | .error err => .error err
  | .ok index => listFrom env 0 index.manifests

/-- The name-matching branch of `getManifestDescriptor`: the first manifest
annotated with the image name whose media type is a manifest or an index. -/
def findByRefName (image : String) : List Descriptor → Option Descriptor
  | [] => none
  | md :: rest =>
    if md.annotations.lookup AnnotationRefName = some image
        ∧ (md.mediaType = MediaTypeImageManifest ∨ md.mediaType = MediaTypeImageIndex) then
      some md
    else findByRefName image rest

/-- The method `ociReference.getManifestDescriptor`. -/
def getManifestDescriptor (env : Env) (dir : StoreDir) (ref : Reference) :
    Except Error Descriptor :=
  match getIndex env dir with
  | .error err => .error err
  | .ok index =>
    if ref.image ≠ "" ∧ ref.sourceIndex ≠ -1 then
      .error (.external "both image and source index set")
    else if ref.sourceIndex ≠ -1 then
      match index.manifests.get? ref.sourceIndex.toNat with
      | some md => if 0 ≤ ref.sourceIndex then .ok md else .error (.external "index out of range")
      | none => .error (.external "index out of range")
    else if ref.image = "" then
      match index.manifests with
      | [md] => .ok md
      | _ => .error (.external "more than one image in oci, choose an image")
    else
      match findByRefName ref.image index.manifests with
      | some md => .ok md
      | none => .error (.external "no descriptor found for reference")

/-- The media type the layout source gives an instance digest: that of the
first manifest of `index.json` with this digest, or none (the empty string). -/
def instanceMediaType (index : Index) (d : Digest) : String :=
  match index.manifests.find? (fun md => md.digest == d) with
  | some md => md.mediaType
  | none => ""

/-- The method `ociImageSource.GetManifest` for the source of descriptor `desc`
opened on the index `index`: the blob of the descriptor with the descriptor's
media type, or the blob of the instance digest with the media type the index
gives that digest; a media type that is still empty is guessed from the bytes. -/
def GetManifest (env : Env) (dir : StoreDir) (index : Index) (desc : Descriptor)
    (instanceDigest : Option Digest) : Except Error (Bytes × String) :=
  let dig := match instanceDigest with
    | none => desc.digest
    | some d => d
  let mimeType := match instanceDigest with
    | none => desc.mediaType
    | some d => instanceMediaType index d
  match blobPath env dig with
  | .error err => .error err
  | .ok manifestPath =>
    match dir.blobs manifestPath with
    | none => .error (.external "manifest blob: no such file or directory")
    | some m => .ok (m, if mimeType = "" then env.guessMIMEType m else mimeType)

/-- The method `ociReference.NewImageSource`: the source keeps the index it
was opened on and the descriptor of its reference. -/
def NewImageSource (env : Env) (dir : StoreDir) (ref : Reference) : Except Error ImageSource :=
  match getIndex env dir with
  | .error err => .error err
  | .ok index =>
    match getManifestDescriptor env dir ref with
    | .error err => .error err
    | .ok desc => .ok { GetManifest := GetManifest env dir index desc }

/-- The method `ociReference.NewImageDestination`: the index, when there is
one, must decode; the store directory is created. -/
def NewImageDestination (env : Env) (dir : StoreDir) : Except Error Unit × StoreDir :=
  match dir.index with
  | none => (.ok (), { dir with present := true })
  | some rawData =>
    match env.unmarshalIndex rawData with
    | .error err => (.error err, dir)
    | .ok _ => (.ok (), { dir with present := true })

/-- The function `layout.PutBlobFromLocalFile`: the bytes of the file are
stored under their digest; returns digest and size. -/
def PutBlobFromLocalFile (env : Env) (dir : StoreDir) (path : String) :
    Except Error (Digest × Int) × StoreDir :=
  match env.readLocalFile path with
  | .error err => (.error err, dir)
  | .ok content =>
    let blobDigest := env.digestFromBytes content
    match blobPath env blobDigest with
    | .error err => (.error err, dir)
    | .ok key =>
      match env.writeBlobErr content with
      | some err => (.error err, dir)
      | none => (.ok (blobDigest, (content.length : Int)), dir.writeBlob key content)

/-- The method `ociImageDestination.PutManifest` with a nil instance digest:
the manifest bytes are stored as a blob under their digest; the index file is
not written (that is left to `Commit`, which the store never calls). -/
def PutManifest (env : Env) (dir : StoreDir) (m : Bytes) : Option Error × StoreDir :=
  match blobPath env (env.digestFromBytes m) with
  | .error err => (some err, dir)
  | .ok key =>
    match env.writeBlobErr m with
    | some err => (some err, dir)
    | none => (none, dir.writeBlob key m)

end layout

/-! ## Artifacts -/

/-- Modelled from the spec: the type `libartifact.Artifact`, declared in a file
of the repository that is not among the sources; §3 gives it a name and an
ordered sequence of leaf content manifests. -/
structure Artifact where
  Manifests : List OCI1
  Name : String
  deriving DecidableEq, Repr

/-- Modelled from the spec: the type `libartifact.ArtifactList`. -/
abbrev ArtifactList := List Artifact

/-- Modelled from the spec: the method `Artifact.SetName`, which assigns the name. -/
def Artifact.SetName (a : Artifact) (name : String) : Artifact :=
  { a with Name := name }

/-- Modelled from the spec: the method `Artifact.GetDigest`, not among the
sources.  By §3 the digest of a content manifest is the hash of its serialized
bytes: that is the digest of an artifact with exactly one leaf manifest.  What
the method gives an artifact with no leaf manifest or with several the spec
does not say; it is left to the environment. -/
def Artifact.GetDigest (env : Env) (a : Artifact) : Except Error Digest :=
  match a.Manifests with
  | [m] =>
    match env.marshalManifest m with
    | .error err => .error err
    | .ok b => .ok (env.digestFromBytes b)
  | manifests => env.digestOfOther manifests

/-- The input designates the manifest digest of the artifact. -/
def Artifact.hasDigest (env : Env) (a : Artifact) (nameOrDigest : String) : Bool :=
  match a.GetDigest env with
  | .ok artifactDigest => env.digestMatches artifactDigest nameOrDigest
  | .error _ => false

/-- Modelled from the spec: the method `ArtifactList.GetByNameOrDigest`, not
among the sources.  The list is scanned for an exact name first: §3 and §8
have `Add` reject every name already in the index, and the comment in `Add`
reads "in GetByName not getting an error means it exists", so a name that is
present is found whatever its shape.  An input that names no artifact is
looked up as a manifest digest (§4.6), first match in list order (§9); no
match is a not-found error.  The flag tells that the match was by digest. -/
def GetByNameOrDigest (env : Env) (al : ArtifactList) (nameOrDigest : String) :
    Except Error (Artifact × Bool) :=
  match al.find? (fun a => a.Name == nameOrDigest) with
  | some a => .ok (a, false)
  | none =>
    match al.find? (fun a => a.hasDigest env nameOrDigest) with
    | some a => .ok (a, true)
    | none => .error (.notFound nameOrDigest)

/-! ## The artifact store -/

/-- The type `ArtifactStore`; the system context is passed through unchanged
and is left out. -/
structure ArtifactStore where
  storePath : String
  deriving DecidableEq, Repr

/-- The function `filepath.Join` on two clean components. -/
def filepathJoin (a b : String) : String := a ++ "/" ++ b

/-- The method `ArtifactStore.readIndex`. -/
def readIndex (env : Env) (dir : StoreDir) : Except Error Index :=
  match dir.index with
  | none => .error (.external "index.json: no such file or directory")
  | some rawData => env.unmarshalIndex rawData

/-- The index file after an `os.WriteFile` of `rawData` that failed: as it
was when the file could not be opened, else truncated and holding the bytes
written before the failure. -/
def failedWrite (old : Option Bytes) (rawData : Bytes) (written : Option Nat) : Option Bytes :=
  match written with
  | none => old
  | some n => some (rawData.take n)

/-- The call `os.WriteFile(as.indexPath(), rawData, 0o644)`. -/
def writeIndexFile (env : Env) (dir : StoreDir) (rawData : Bytes) : Option Error × StoreDir :=
  match env.writeIndexErr with
  | some err =>
    (some err, { dir with index := failedWrite dir.index rawData env.writeIndexWritten })
  | none => (none, { dir with index := some rawData })

/-- The method `ArtifactStore.writeIndex`. -/
def writeIndex (env : Env) (dir : StoreDir) (index : Index) : Option Error × StoreDir :=
  match env.marshalIndex index with
  | .error err => (some err, dir)
  | .ok rawData => writeIndexFile env dir rawData

/-- The method `ArtifactStore.createEmptyManifest`. -/
def createEmptyManifest (env : Env) (dir : StoreDir) : Option Error × StoreDir :=
  match env.marshalIndex Index.zero with
  | .error err => (some err, dir)
  | .ok rawData => writeIndexFile env dir rawData

/-- The store path `NewArtifactStore` settles on: the override, or the
`artifacts` directory under the default graph root. -/
def resolveStorePath (env : Env) (storePath : String) : Except Error String :=
  if storePath = "" then
    match env.defaultGraphRoot with
    | .error err => .error err
    | .ok graphRoot =>
      if graphRoot = "" then .error (.external "unable to determine artifact store")
      else .ok (filepathJoin graphRoot "artifacts")
  else .ok storePath

/-- The function `NewArtifactStore`; `dir` is the state of the directory at
the store path the constructor settles on. -/
def NewArtifactStore (env : Env) (dir : StoreDir) (storePath : String) :
    Except Error ArtifactStore × StoreDir :=
  match resolveStorePath env storePath with
  | .error err => (.error err, dir)
  | .ok storePath =>
    let artifactStore : ArtifactStore := { storePath := storePath }
    match env.mkdirAllErr with
    | some err => (.error err, dir)
    | none =>
      let dir := { dir with present := true }
      match env.statIndexErr with
      | some _ => (.ok artifactStore, dir)
      | none =>
        match dir.index with
        | some _ => (.ok artifactStore, dir)
        | none =>
          match createEmptyManifest env dir with
          | (some createErr, dir) => (.error createErr, dir)
          | (none, dir) => (.ok artifactStore, dir)

/-- The artifact `getArtifacts` builds from a list result and its manifests:
the name is set when the entry carries the name annotation. -/
def artifactOf (l : layout.ListResult) (manifests : List OCI1) : Artifact :=
  let artifact : Artifact := { Manifests := manifests, Name := "" }
  match l.ManifestDescriptor.annotations.lookup AnnotatedName with
  | some val => artifact.SetName val
  | none => artifact

/-- The loop of `getArtifacts` over the results of `layout.List`; `al` is the
list built so far. -/
def getArtifactsLoop (env : Env) (fuel : Nat) (dir : StoreDir) :
    List layout.ListResult → ArtifactList → Option (Except Error ArtifactList)
  | [], al => some (.ok al)
  | l :: rest, al =>
    match layout.NewImageSource env dir l.Reference with
    | .error err => some (.error err)
    | .ok imgSrc =>
      match getManifests env fuel imgSrc none with
      | none => none
      | some (_, some err) => some (.error err)
      | some (manifests, none) =>
        getArtifactsLoop env fuel dir rest (al ++ [artifactOf l manifests])

/-- The method `ArtifactStore.getArtifacts`. -/
def getArtifacts (env : Env) (fuel : Nat) (dir : StoreDir) : Option (Except Error ArtifactList) :=
  match layout.ListLayout env dir with
  | .error err => some (.error err)
  | .ok lrs => getArtifactsLoop env fuel dir lrs []

/-- The method `ArtifactStore.Inspect`. -/
def ArtifactStore.Inspect (env : Env) (fuel : Nat) (dir : StoreDir) (nameOrDigest : String) :
    Option (Except Error Artifact) :=
  if nameOrDigest.length = 0 then some (.error ErrEmptyArtifactName)
  else
    match getArtifacts env fuel dir with
    | none => none
    | some (.error err) => some (.error err)
    | some (.ok artifacts) =>
      match GetByNameOrDigest env artifacts nameOrDigest with
      | .error err => some (.error err)
      | .ok (inspectData, _) => some (.ok inspectData)

/-- The function `checkForEmptyStanzaFile` on the blob file `key`. -/
def checkForEmptyStanzaFile (env : Env) (dir : StoreDir) (key : String × String) :
    Option Error × StoreDir :=
  match dir.blobs key with
  | some _ => (none, dir)
  | none =>
    match env.writeBlobErr emptyStanza with
    | some err => (some err, dir)
    | none => (none, dir.writeBlob key emptyStanza)

/-- The `for _, path := range paths` loop of `Add`; `artifactManifestLayers`
is the slice built so far. -/
def addLayers (env : Env) :
    StoreDir → List String → List Descriptor → Except Error (List Descriptor) × StoreDir
  | dir, [], artifactManifestLayers => (.ok artifactManifestLayers, dir)
  | dir, path :: rest, artifactManifestLayers =>
    match layout.PutBlobFromLocalFile env dir path with
    | (.error err, dir) => (.error err, dir)
    | (.ok (newBlobDigest, newBlobSize), dir) =>
      let newLayer : Descriptor :=
        { mediaType := DefaultMime
          digest := newBlobDigest
          size := newBlobSize
          annotations := [(AnnotationTitle, filepathBase path)] }
      addLayers env dir rest (artifactManifestLayers ++ [newLayer])

/-- The manifest `Add` builds from the layer descriptors. -/
def artifactManifestOf (artifactManifestLayers : List Descriptor) : Manifest :=
  { schemaVersion := 2
    mediaType := MediaTypeImageManifest
    artifactType := ""
    config := DescriptorEmptyJSON
    layers := artifactManifestLayers }

/-- The index entry `Add` builds for the manifest bytes `rawData` named `dest`. -/
def manifestDescriptorOf (env : Env) (dest : String) (rawData : Bytes) : Descriptor :=
  { mediaType := MediaTypeImageManifest
    digest := env.digestFromBytes rawData
    size := (rawData.length : Int)
    annotations := [(AnnotationRefName, dest)] }

/-- The blob file `checkForEmptyStanzaFile` is called on by `Add`. -/
def emptyStanzaKey (env : Env) (rawData : Bytes) : String × String :=
  ((env.digestFromBytes rawData).Algorithm, DescriptorEmptyJSON.digest.Encoded)

/-- The method `ArtifactStore.Add`: the value returned and the directory afterwards. -/
def ArtifactStore.Add (env : Env) (fuel : Nat) (dir : StoreDir) (dest : String)
    (paths : List String) : Option (Except Error Digest × StoreDir) :=
  if dest.length = 0 then some (.error ErrEmptyArtifactName, dir)
  else
    match getArtifacts env fuel dir with
    | none => none
    | some (.error err) => some (.error err, dir)
    | some (.ok artifacts) =>
      match GetByNameOrDigest env artifacts dest with
      | .ok _ => some (.error (.alreadyExists dest), dir)
      | .error _ =>
        match layout.NewReference env dest with
        | .error err => some (.error err, dir)
        | .ok _ =>
          match layout.NewImageDestination env dir with
          | (.error err, dir) => some (.error err, dir)
          | (.ok _, dir) =>
            match addLayers env dir paths [] with
            | (.error err, dir) => some (.error err, dir)
            | (.ok artifactManifestLayers, dir) =>
              let artifactManifest := artifactManifestOf artifactManifestLayers
              match env.marshalManifest artifactManifest with
              | .error err => some (.error err, dir)
              | .ok rawData =>
                match layout.PutManifest env dir rawData with
                | (some err, dir) => some (.error err, dir)
                | (none, dir) =>
                  let artifactManifestDigest := env.digestFromBytes rawData
                  let dir := (checkForEmptyStanzaFile env dir (emptyStanzaKey env rawData)).2
                  let manifestDescriptor := manifestDescriptorOf env dest rawData
                  match readIndex env dir with
                  | .error err => some (.error err, dir)
                  | .ok storeIndex =>
                    let storeIndex :=
                      { storeIndex with manifests := storeIndex.manifests ++ [manifestDescriptor] }
                    match writeIndex env dir storeIndex with
                    | (some err, dir) => some (.error err, dir)
                    | (none, dir) => some (.ok artifactManifestDigest, dir)

/-- The method `ArtifactStore.Remove`: the Go pair `(digest, err)` it returns
and the directory afterwards.  `DeleteImage` is the method of the layout
reference that deletes the stored image. -/
def ArtifactStore.Remove (env : Env)
    (DeleteImage : layout.Reference → StoreDir → Option Error × StoreDir)
    (fuel : Nat) (dir : StoreDir) (name : String) :
    Option ((Option Digest × Option Error) × StoreDir) :=
  if name.length = 0 then some ((none, some ErrEmptyArtifactName), dir)
  else
    match getArtifacts env fuel dir with
    | none => none
    | some (.error err) => some ((none, some err), dir)
    | some (.ok artifacts) =>
      match GetByNameOrDigest env artifacts name with
      | .error err => some ((none, some err), dir)
      | .ok (arty, nameIsDigest) =>
        let name := if nameIsDigest then arty.Name else name
        match layout.NewReference env name with
        | .error err => some ((none, some err), dir)
        | .ok ir =>
          match arty.GetDigest env with
          | .error err => some ((none, some err), dir)
          | .ok artifactDigest =>
            match DeleteImage ir dir with
            | (deleteErr, dir) => some ((some artifactDigest, deleteErr), dir)

/-- The method `ArtifactStore.List`. -/
def ArtifactStore.List (env : Env) (fuel : Nat) (dir : StoreDir) :
    Option (Except Error ArtifactList) :=
  getArtifacts env fuel dir

/-- A sequence of `Add` calls, each on the directory the previous one left;
`none` when one of them does not return. -/
def runAdds (env : Env) (fuel : Nat) : StoreDir → List (String × List String) → Option StoreDir
  | dir, [] => some dir
  | dir, (dest, paths) :: rest =>
    match ArtifactStore.Add env fuel dir dest paths with
    | none => none
    | some (_, dir) => runAdds env fuel dir rest

/-- The artifact `getArtifacts` builds for the list result `l` is `a`: its
manifests are what `getManifests` returns, without error, on the image source
of the result's reference, and its name is the name annotation of the entry
(empty when there is none). -/
def resolvesTo (env : Env) (fuel : Nat) (dir : StoreDir) (l : layout.ListResult)
    (a : Artifact) : Prop :=
  ∃ imgSrc, layout.NewImageSource env dir l.Reference = .ok imgSrc ∧
    getManifests env fuel imgSrc none = some (a.Manifests, none) ∧
    a.Name = (l.ManifestDescriptor.annotations.lookup AnnotatedName).getD ""

/-- The manifests of the artifact `a` are what `getManifests` returns, without
error, starting from the index entry `md` itself, and its name is the name
annotation of the entry (empty when there is none). -/
def resolvesFromEntry (env : Env) (fuel : Nat) (dir : StoreDir) (index : Index)
    (md : Descriptor) (a : Artifact) : Prop :=
  getManifests env fuel { GetManifest := layout.GetManifest env dir index md } none
    = some (a.Manifests, none) ∧
  a.Name = (md.annotations.lookup AnnotatedName).getD ""

/-- The layer `Add` appends for `path`: a blob write of that file returns its
digest and size, and the title annotation is the base filename. -/
def layerOfPath (env : Env) (path : String) (layer : Descriptor) : Prop :=
  ∃ dirBefore newBlobDigest newBlobSize,
    (layout.PutBlobFromLocalFile env dirBefore path).1 = .ok (newBlobDigest, newBlobSize) ∧
    layer = { mediaType := DefaultMime, digest := newBlobDigest, size := newBlobSize,
              annotations := [(AnnotationTitle, filepathBase path)] }

/-- Every manifest the source `imgSrc` serves is served unchanged by `imgSrc'`. -/
def sourceExtends (imgSrc imgSrc' : ImageSource) : Prop :=
  ∀ d r, imgSrc.GetManifest d = .ok r → imgSrc'.GetManifest d = .ok r

/-- Every blob of `dir` is in `dir'` with the same bytes. -/
def blobsKept (dir dir' : StoreDir) : Prop :=
  ∀ k b, dir.blobs k = some b → dir'.blobs k = some b

/-- The title annotations of the layers of a manifest, in order. -/
def layerTitles (m : Manifest) : List (Option String) :=
  m.layers.map (fun layer => layer.annotations.lookup AnnotationTitle)

/-- The names the entries of an index carry in their name annotation. -/
def entryNames (index : Index) : List String :=
  index.manifests.filterMap (fun md => md.annotations.lookup AnnotationRefName)

/-- The entries of the index the index file holds carry pairwise distinct names. -/
def namesUnique (env : Env) (dir : StoreDir) : Prop :=
  ∀ index, readIndex env dir = .ok index → (entryNames index).Nodup

/-! ## Specification-level notions for the resolver -/

/-- The call `getManifests(imgSrc, startingDigest)` returns the pair `r`. -/
def getManifestsReturns (env : Env) (imgSrc : ImageSource) (startingDigest : Option Digest)
    (r : List OCI1 × Option Error) : Prop :=
  ∃ fuel, getManifests env fuel imgSrc startingDigest = some r

/-- The fetch or the decode of the manifest at `d` fails. -/
def failsAt (env : Env) (imgSrc : ImageSource) (d : Option Digest) : Bool :=
  match imgSrc.GetManifest d with
  | .error _ => true
  | .ok (b, manifestType) =>
    if !MIMETypeIsMultiImage manifestType then
      match env.OCI1FromManifest b with
      | .error _ => true
      | .ok _ => false
    else
      match env.OCI1IndexFromManifest b with
      | .error _ => true
      | .ok _ => false

/-- The child descriptors of the manifest at `d`, when it is an index that decodes. -/
def indexChildren (env : Env) (imgSrc : ImageSource) (d : Option Digest) : List Descriptor :=
  match imgSrc.GetManifest d with
  | .error _ => []
  | .ok (b, manifestType) =>
    if !MIMETypeIsMultiImage manifestType then []
    else
      match env.OCI1IndexFromManifest b with
      | .error _ => []
      | .ok maniList => maniList.manifests

/-- Manifests reachable from a starting reference through index children. -/
inductive Reachable (env : Env) (imgSrc : ImageSource) : Option Digest → Option Digest → Prop
  | refl (d : Option Digest) : Reachable env imgSrc d d
  | step {d e : Option Digest} {c : Descriptor} :
      c ∈ indexChildren env imgSrc d → Reachable env imgSrc (some c.digest) e →
      Reachable env imgSrc d e

/-- Some manifest reachable from `d` fails to be fetched or decoded. -/
def failsBelow (env : Env) (imgSrc : ImageSource) (d : Option Digest) : Prop :=
  ∃ e, Reachable env imgSrc d e ∧ failsAt env imgSrc e = true

/-! ## Decompressors (`pkg/machine/compression`) -/

/-- What a Go call does: it returns a value, or it panics. -/
inductive Outcome (α : Type) where
  | returned (value : α)
  | panicked (reason : String)
  deriving DecidableEq, Repr

/-- The part of `os.FileInfo` the decompressors read. -/
structure FileInfo where
  size : Int
  mode : Nat
  deriving DecidableEq, Repr

/-- The struct `genericDecompressor`; the file handle is nil until the reader is opened. -/
structure genericDecompressor where
  compressedFilePath : String
  compressedFile : Option String
  compressedFileInfo : Option FileInfo
  deriving DecidableEq, Repr

/-- The struct `gzipDecompressor`, which embeds a `genericDecompressor` by value. -/
structure gzipDecompressor where
  genericDecompressor : genericDecompressor
  deriving DecidableEq, Repr

/-- The function `newGenericDecompressor`; `stat` is `os.Stat`, and a nil
pointer is `none`. -/
def newGenericDecompressor (stat : String → Except Error FileInfo)
    (compressedFilePath : String) : Option genericDecompressor × Option Error :=
  let d : genericDecompressor :=
    { compressedFilePath := compressedFilePath, compressedFile := none,
      compressedFileInfo := none }
  match stat d.compressedFilePath with
  | .error err => (none, some err)
  | .ok st => (some { d with compressedFileInfo := some st }, none)

/-- The function `newGzipDecompressor`: the pointer returned by
`newGenericDecompressor` is dereferenced before the error is looked at. -/
def newGzipDecompressor (stat : String → Except Error FileInfo)
    (compressedFilePath : String) : Outcome (Option gzipDecompressor × Option Error) :=
  match newGenericDecompressor stat compressedFilePath with
  | (none, _) => .panicked "invalid memory address or nil pointer dereference"
  | (some d, err) => .returned (some { genericDecompressor := d }, err)

/-! ## Example data -/

/-- A file system holding the one compressed file `/tmp/disk.gz`. -/
def exStat (path : String) : Except Error FileInfo :=
  if path = "/tmp/disk.gz" then .ok { size := 1024, mode := 420 }
  else .error (.external "stat: no such file or directory")

/-- A manifest with the given layers, used in the examples. -/
def exManifest (n : Nat) : Manifest :=
  { schemaVersion := 2, mediaType := MediaTypeImageManifest, artifactType := "",
    config := DescriptorEmptyJSON, layers := List.replicate n DescriptorEmptyJSON }

/-- A descriptor pointing at the digest `d`. -/
def exDesc (d : String) : Descriptor :=
  { mediaType := MediaTypeImageManifest, digest := d, size := 1, annotations := [] }

/-- Example codecs: the bytes `[0, n]` are the manifest with `n` layers, `[1]`
is an index of the manifests `a` and `b`, `[2]` an index of `self` and `bad`. -/
def exEnv : Env :=
  { digestFromBytes := fun _ => "sha256:00"
    marshalManifest := fun m => .ok [0, m.layers.length]
    marshalIndex := fun _ => .ok [1]
    unmarshalIndex := fun _ => .error (.external "not an index")
    OCI1FromManifest := fun b =>
      match b with
      | [0, n] => .ok (exManifest n)
      | _ => .error (.external "not a manifest")
    OCI1IndexFromManifest := fun b =>
      match b with
      | [1] => .ok { schemaVersion := 2, mediaType := MediaTypeImageIndex,
                     manifests := [exDesc "a", exDesc "b"] }
      | [2] => .ok { schemaVersion := 2, mediaType := MediaTypeImageIndex,
                     manifests := [exDesc "self", exDesc "bad"] }
      | _ => .error (.external "not an index")
    parseDigest := fun _ => true
    validImageName := fun _ => true
    guessMIMEType := fun _ => ""
    readLocalFile := fun _ => .error (.external "no such file")
    defaultGraphRoot := .ok "/var/lib/containers/storage"
    mkdirAllErr := none
    statIndexErr := none
    writeIndexErr := none
    writeIndexWritten := none
    digestMatches := fun d nameOrDigest => d == nameOrDigest
    digestOfOther := fun _ => .error (.external "not supported")
    writeBlobErr := fun _ => none }

/-- A source whose top manifest is an index of two plain manifests. -/
def exTreeSource : ImageSource :=
  { GetManifest := fun d =>
      match d with
      | none => .ok ([1], MediaTypeImageIndex)
      | some "a" => .ok ([0, 1], MediaTypeImageManifest)
      | some "b" => .ok ([0, 2], MediaTypeImageManifest)
      | some _ => .error (.external "no such blob") }

/-- A source whose top manifest is an index listing itself and then a blob
that cannot be fetched. -/
def exCyclicSource : ImageSource :=
  { GetManifest := fun d =>
      match d with
      | none => .ok ([2], MediaTypeImageIndex)
      | some "self" => .ok ([2], MediaTypeImageIndex)
      | some _ => .error (.external "no such blob") }

/-- Layers of the example artifact: the files `a.txt` and `b.txt`. -/
def demoLayers : List Descriptor :=
  [ { mediaType := DefaultMime, digest := "sha256:aa", size := 1,
      annotations := [(AnnotationTitle, "a.txt")] },
    { mediaType := DefaultMime, digest := "sha256:bb", size := 1,
      annotations := [(AnnotationTitle, "b.txt")] } ]

/-- Manifest of the example artifact. -/
def demoManifest : Manifest := artifactManifestOf demoLayers

/-- Index entry of the example manifest under the given name. -/
def demoEntry (name : String) : Descriptor :=
  { mediaType := MediaTypeImageManifest, digest := "sha256:cc", size := 1,
    annotations := [(AnnotationRefName, name)] }

/-- Manifest of a second artifact, holding the file `a.txt` only. -/
def soloManifest : Manifest := artifactManifestOf (demoLayers.take 1)

/-- Index entry of the second manifest under the given name. -/
def soloEntry (name : String) : Descriptor :=
  { mediaType := MediaTypeImageManifest, digest := "sha256:ee", size := 1,
    annotations := [(AnnotationRefName, name)] }

/-- An index with the given entries. -/
def demoIndex (entries : List Descriptor) : Index :=
  { schemaVersion := 0, mediaType := "", manifests := entries }

/-- The indices the example codec knows, each with its bytes. -/
def demoIndexTable : List (Index × Bytes) :=
  [ (demoIndex [], [0]),
    (demoIndex [demoEntry "demo"], [1]),
    (demoIndex [demoEntry "demo", demoEntry "other"], [2]),
    (demoIndex [demoEntry "demo", soloEntry "solo"], [3]),
    (demoIndex [demoEntry "dup", soloEntry "dup"], [4]),
    (demoIndex [demoEntry "other"], [5]) ]

/-- Example environment: the local files `/tmp/a.txt` and `/tmp/b.txt` hold one
byte each, the example manifest is the bytes `[20]` and the second manifest the
bytes `[21]`, digests and index bytes come from small tables, strings starting
with `sha256:` are valid digests, an input designates a digest when it is a
prefix of its hex encoding, and no file operation fails. -/
def demoEnv : Env :=
  { digestFromBytes := fun b =>
      match b with
      | [10] => "sha256:aa"
      | [11] => "sha256:bb"
      | [20] => "sha256:cc"
      | [21] => "sha256:ee"
      | _ => "sha256:dd"
    marshalManifest := fun m =>
      if m = demoManifest then .ok [20]
      else if m = soloManifest then .ok [21]
      else .error (.external "unsupported manifest")
    marshalIndex := fun i =>
      match demoIndexTable.find? (fun p => p.1 == i) with
      | some p => .ok p.2
      | none => .error (.external "unsupported index")
    unmarshalIndex := fun b =>
      match demoIndexTable.find? (fun p => p.2 == b) with
      | some p => .ok p.1
      | none => .error (.external "invalid index")
    OCI1FromManifest := fun b =>
      match b with
      | [20] => .ok demoManifest
      | [21] => .ok soloManifest
      | _ => .error (.external "not a manifest")
    OCI1IndexFromManifest := fun _ => .error (.external "not an index")
    parseDigest := fun s => s.toList.take 7 == "sha256:".toList
    validImageName := fun _ => true
    guessMIMEType := fun b =>
      match b with
      | [20] => MediaTypeImageManifest
      | [21] => MediaTypeImageManifest
      | _ => ""
    readLocalFile := fun path =>
      match path with
      | "/tmp/a.txt" => .ok [10]
      | "/tmp/b.txt" => .ok [11]
      | _ => .error (.external "no such file or directory")
    defaultGraphRoot := .ok "/var/lib/containers/storage"
    mkdirAllErr := none
    statIndexErr := none
    writeIndexErr := none
    writeIndexWritten := none
    digestMatches := fun d nameOrDigest => nameOrDigest.toList.isPrefixOf d.Encoded.toList
    digestOfOther := fun _ => .error (.external "not supported")
    writeBlobErr := fun _ => none }

/-- A directory that does not exist yet. -/
def noDir : StoreDir := { present := false, index := none, blobs := fun _ => none }

/-- The store directory with the given index bytes and the blobs of the two
example artifacts. -/
def demoDir (index : Bytes) : StoreDir :=
  { present := true
    index := some index
    blobs := fun k =>
      if k = ("sha256", "aa") then some [10]
      else if k = ("sha256", "bb") then some [11]
      else if k = ("sha256", "cc") then some [20]
      else if k = ("sha256", "ee") then some [21]
      else none }

/-- A store directory that exists and holds neither an index file nor blobs. -/
def indexlessDir : StoreDir := { present := true, index := none, blobs := fun _ => none }

/-- The store directory right after construction: an empty index, no blobs. -/
def demoEmptyDir : StoreDir := { present := true, index := some [0], blobs := fun _ => none }

/-- The example environment with an index file that cannot be examined: the
existence check fails, and not with "does not exist". -/
def demoEnvStatDenied : Env :=
  { demoEnv with statIndexErr := some (.external "stat index.json: permission denied") }

/-- The example environment in which writing the empty-config blob fails. -/
def demoEnvStanzaFails : Env :=
  { demoEnv with
    writeBlobErr := fun b =>
      if b = emptyStanza then some (.external "write: no space left on device") else none }

/-- The example environment in which rewriting the index file fails after the
file was truncated and before any byte was written. -/
def demoEnvWriteFails : Env :=
  { demoEnv with
    writeIndexErr := some (.external "write index.json: no space left on device")
    writeIndexWritten := some 0 }

/-- An example deletion: the entries of the index that carry the name of the
reference are dropped and the index file is rewritten; a name no entry
carries is not found. -/
def demoDeleteImage (ref : layout.Reference) (dir : StoreDir) : Option Error × StoreDir :=
  match readIndex demoEnv dir with
  | .error err => (some err, dir)
  | .ok index =>
    if index.manifests.any
        (fun md => md.annotations.lookup AnnotationRefName == some ref.image) then
      let kept := index.manifests.filter
        (fun md => !(md.annotations.lookup AnnotationRefName == some ref.image))
      match demoEnv.marshalIndex { index with manifests := kept } with
      | .error err => (some err, dir)
      | .ok raw => (none, { dir with index := some raw })
    else (some (.external "no such image"), dir)

/-- The directory `Add` leaves, or the directory as it was when `Add` does not return. -/
def dirAfterAdd (env : Env) (fuel : Nat) (dir : StoreDir) (dest : String)
    (paths : List String) : StoreDir :=
  match ArtifactStore.Add env fuel dir dest paths with
  | some (_, dir') => dir'
  | none => dir

/-- Nesting rank of the references of `exTreeSource`. -/
def exRank : Option Digest → Nat
  | none => 1
  | some _ => 0

/-! ## Theorems -/

/-! ### The resolver -/

theorem getManifestsLoop_mono {f g : Option Digest → Option (List OCI1 × Option Error)}
    (hfg : ∀ d r, f d = some r → g d = some r) :
    ∀ (ds : List Descriptor) (acc : List OCI1) (r : List OCI1 × Option Error),
      getManifestsLoop f ds acc = some r → getManifestsLoop g ds acc = some r := by
  intro ds
  induction ds with
  | nil => intro acc r h; simpa [getManifestsLoop] using h
  | cons m rest ih =>
    intro acc r h
    unfold getManifestsLoop at h ⊢
    cases hf : f (some m.digest) with
    | none => simp [hf] at h
    | some p =>
      obtain ⟨iter, e⟩ := p
      rw [hfg _ _ hf]
      rw [hf] at h
      cases e with
      | some err => simpa using h
      | none => exact ih _ _ h

theorem getManifests_succ (env : Env) (imgSrc : ImageSource) :
    ∀ (fuel : Nat) (d : Option Digest) (r : List OCI1 × Option Error),
      getManifests env fuel imgSrc d = some r → getManifests env (fuel + 1) imgSrc d = some r := by
  intro fuel
  induction fuel with
  | zero => intro d r h; simp [getManifests] at h
  | succ n ih =>
    intro d r h
    rw [getManifests] at h ⊢
    cases hg : imgSrc.GetManifest d with
    | error err => rw [hg] at h; simpa using h
    | ok p =>
      obtain ⟨b, ty⟩ := p
      rw [hg] at h
      simp only at h ⊢
      by_cases hm : MIMETypeIsMultiImage ty = true
      · simp only [hm, Bool.not_true, Bool.false_eq_true, if_false] at h ⊢
        cases hd : env.OCI1IndexFromManifest b with
        | error err => rw [hd] at h; simpa using h
        | ok maniList =>
          rw [hd] at h
          exact getManifestsLoop_mono (ih) _ _ _ h
      · simp only [hm, Bool.not_false, if_true] at h ⊢
        simpa using h

theorem getManifests_mono (env : Env) (imgSrc : ImageSource) {fuel fuel' : Nat}
    (hle : fuel ≤ fuel') {d : Option Digest} {r : List OCI1 × Option Error}
    (h : getManifests env fuel imgSrc d = some r) :
    getManifests env fuel' imgSrc d = some r := by
  induction hle with
  | refl => exact h
  | step _ ih => exact getManifests_succ env imgSrc _ _ _ ih

/-- When every child resolves successfully, the loop returns the accumulated
slice followed by the children's results in order. -/
theorem getManifestsLoop_flatten {f : Option Digest → Option (List OCI1 × Option Error)} :
    ∀ (ds : List Descriptor) (rs : List (List OCI1)) (acc : List OCI1),
      List.Forall₂ (fun c r => f (some c.digest) = some (r, none)) ds rs →
      getManifestsLoop f ds acc = some (acc ++ rs.flatten, none) := by
  intro ds rs acc h
  induction h generalizing acc with
  | nil => simp [getManifestsLoop]
  | cons hc _ ih =>
    unfold getManifestsLoop
    rw [hc]
    simp only
    rw [ih]
    simp

theorem getManifestsReturns_common_fuel (env : Env) (imgSrc : ImageSource)
    {ds : List Descriptor} {rs : List (List OCI1)}
    (h : List.Forall₂ (fun c r => getManifestsReturns env imgSrc (some c.digest) (r, none)) ds rs) :
    ∃ fuel, List.Forall₂
      (fun c r => getManifests env fuel imgSrc (some c.digest) = some (r, none)) ds rs := by
  induction h with
  | nil => exact ⟨0, List.Forall₂.nil⟩
  | @cons c r ds rs hc _ ih =>
    obtain ⟨n, hn⟩ := hc
    obtain ⟨m, hm⟩ := ih
    refine ⟨max n m, List.Forall₂.cons ?_ ?_⟩
    · exact getManifests_mono env imgSrc (le_max_left n m) hn
    · exact hm.imp (fun _ _ hx => getManifests_mono env imgSrc (le_max_right n m) hx)

/-- C7: `getManifests` flattens the manifest tree depth-first, left to right.
When the fetched manifest is not a multi-image type and decodes to `mani`, the
call returns the one-element sequence `[mani]` without error; when it is an
index that decodes to `maniList` and the calls on its children return the
sequences `rs` (in the listed order), the call returns their concatenation
in that order. -/
theorem getManifests_flattens (env : Env) (imgSrc : ImageSource) (startingDigest : Option Digest)
    (b : Bytes) (manifestType : String)
    (hget : imgSrc.GetManifest startingDigest = .ok (b, manifestType)) :
    (MIMETypeIsMultiImage manifestType = false →
      ∀ mani, env.OCI1FromManifest b = .ok mani →
        getManifestsReturns env imgSrc startingDigest ([mani], none)) ∧
    (MIMETypeIsMultiImage manifestType = true →
      ∀ maniList, env.OCI1IndexFromManifest b = .ok maniList →
        ∀ rs : List (List OCI1),
          List.Forall₂
            (fun c r => getManifestsReturns env imgSrc (some c.digest) (r, none))
            maniList.manifests rs →
          getManifestsReturns env imgSrc startingDigest (rs.flatten, none)) := by
  constructor
  · intro hm mani hd
    refine ⟨1, ?_⟩
    simp [getManifests, hget, hm, hd]
  · intro hm maniList hd rs hrs
    obtain ⟨fuel, hf⟩ := getManifestsReturns_common_fuel env imgSrc hrs
    refine ⟨fuel + 1, ?_⟩
    have := getManifestsLoop_flatten (f := getManifests env fuel imgSrc) _ _ [] hf
    simpa [getManifests, hget, hm, hd] using this

/-- C7 at an index of two plain manifests: the result lists the manifest of
`a` and then the manifest of `b`. -/
theorem getManifests_flattens_witness :
    exTreeSource.GetManifest none = .ok ([1], MediaTypeImageIndex) ∧
    getManifestsReturns exEnv exTreeSource none ([[exManifest 1], [exManifest 2]].flatten, none) :=
  ⟨rfl,
   (getManifests_flattens exEnv exTreeSource none [1] MediaTypeImageIndex rfl).2 (by decide)
     { schemaVersion := 2, mediaType := MediaTypeImageIndex,
       manifests := [exDesc "a", exDesc "b"] } rfl
     [[exManifest 1], [exManifest 2]]
     (List.Forall₂.cons
       ((getManifests_flattens exEnv exTreeSource (some "a") [0, 1] MediaTypeImageManifest rfl).1
         (by decide) (exManifest 1) rfl)
       (List.Forall₂.cons
         ((getManifests_flattens exEnv exTreeSource (some "b") [0, 2] MediaTypeImageManifest rfl).1
           (by decide) (exManifest 2) rfl)
         List.Forall₂.nil))⟩

theorem failsBelow_iff (env : Env) (imgSrc : ImageSource) (d : Option Digest) :
    failsBelow env imgSrc d ↔
      (failsAt env imgSrc d = true ∨
        ∃ c ∈ indexChildren env imgSrc d, failsBelow env imgSrc (some c.digest)) := by
  constructor
  · rintro ⟨e, hr, hf⟩
    cases hr with
    | refl => exact Or.inl hf
    | step hc hr' => exact Or.inr ⟨_, hc, _, hr', hf⟩
  · rintro (hf | ⟨c, hc, e, hr, hf⟩)
    · exact ⟨d, Reachable.refl d, hf⟩
    · exact ⟨e, Reachable.step hc hr, hf⟩

theorem getManifestsLoop_error_iff {f : Option Digest → Option (List OCI1 × Option Error)}
    {P : Option Digest → Prop}
    (hf : ∀ d r, f d = some r → ((r.2 ≠ none ↔ P d) ∧ (r.2 ≠ none → r.1 = []))) :
    ∀ (ds : List Descriptor) (acc : List OCI1) (res : List OCI1 × Option Error),
      getManifestsLoop f ds acc = some res →
      ((res.2 ≠ none ↔ ∃ c ∈ ds, P (some c.digest)) ∧ (res.2 ≠ none → res.1 = [])) := by
  intro ds
  induction ds with
  | nil =>
    intro acc res h
    simp only [getManifestsLoop, Option.some.injEq] at h
    subst h
    simp
  | cons m rest ih =>
    intro acc res h
    unfold getManifestsLoop at h
    cases hr : f (some m.digest) with
    | none => simp [hr] at h
    | some p =>
      obtain ⟨iter, e⟩ := p
      rw [hr] at h
      have hp := hf _ _ hr
      cases e with
      | some err =>
        simp only [Option.some.injEq] at h
        subst h
        have hPm : P (some m.digest) := hp.1.mp (by simp)
        exact ⟨⟨fun _ => ⟨m, List.mem_cons_self _ _, hPm⟩, fun _ => by simp⟩, fun _ => rfl⟩
      | none =>
        simp only at h
        have hnP : ¬ P (some m.digest) := fun hP => (hp.1.mpr hP) rfl
        obtain ⟨h1, h2⟩ := ih _ _ h
        refine ⟨h1.trans ⟨?_, ?_⟩, h2⟩
        · rintro ⟨c, hc, hPc⟩
          exact ⟨c, List.mem_cons_of_mem _ hc, hPc⟩
        · rintro ⟨c, hc, hPc⟩
          rcases List.mem_cons.mp hc with rfl | hc'
          · exact absurd hPc hnP
          · exact ⟨c, hc', hPc⟩

theorem getManifests_error_iff (env : Env) (imgSrc : ImageSource) :
    ∀ (fuel : Nat) (d : Option Digest) (res : List OCI1 × Option Error),
      getManifests env fuel imgSrc d = some res →
      ((res.2 ≠ none ↔ failsBelow env imgSrc d) ∧ (res.2 ≠ none → res.1 = [])) := by
  intro fuel
  induction fuel with
  | zero => intro d res h; simp [getManifests] at h
  | succ n ih =>
    intro d res h
    rw [failsBelow_iff]
    rw [getManifests] at h
    unfold failsAt indexChildren
    cases hg : imgSrc.GetManifest d with
    | error err =>
      rw [hg] at h
      simp only [Option.some.injEq] at h
      subst h
      simp
    | ok p =>
      obtain ⟨b, ty⟩ := p
      rw [hg] at h
      simp only at h ⊢
      by_cases hm : MIMETypeIsMultiImage ty = true
      · simp only [hm, Bool.not_true, Bool.false_eq_true, if_false] at h ⊢
        cases hd : env.OCI1IndexFromManifest b with
        | error err =>
          rw [hd] at h
          simp only [Option.some.injEq] at h
          subst h
          simp
        | ok maniList =>
          rw [hd] at h
          have := getManifestsLoop_error_iff (P := failsBelow env imgSrc) ih _ _ _ h
          simpa using this
      · simp only [hm, Bool.not_false, if_true] at h ⊢
        cases hd : env.OCI1FromManifest b with
        | error err =>
          rw [hd] at h
          simp only [Option.some.injEq] at h
          subst h
          simp
        | ok mani =>
          rw [hd] at h
          simp only [Option.some.injEq] at h
          subst h
          simp

theorem getManifestsLoop_returns {f : Option Digest → Option (List OCI1 × Option Error)} :
    ∀ (ds : List Descriptor) (acc : List OCI1),
      (∀ c ∈ ds, ∃ r, f (some c.digest) = some r) →
      ∃ res, getManifestsLoop f ds acc = some res := by
  intro ds
  induction ds with
  | nil => intro acc _; exact ⟨_, rfl⟩
  | cons m rest ih =>
    intro acc h
    obtain ⟨⟨iter, e⟩, hr⟩ := h m (List.mem_cons_self _ _)
    unfold getManifestsLoop
    rw [hr]
    cases e with
    | some err => exact ⟨_, rfl⟩
    | none => exact ih _ (fun c hc => h c (List.mem_cons_of_mem _ hc))

theorem getManifests_returns_of_rank (env : Env) (imgSrc : ImageSource)
    (rank : Option Digest → Nat)
    (hrank : ∀ d c, c ∈ indexChildren env imgSrc d → rank (some c.digest) < rank d) :
    ∀ (fuel : Nat) (d : Option Digest), rank d < fuel →
      ∃ res, getManifests env fuel imgSrc d = some res := by
  intro fuel
  induction fuel with
  | zero => intro d h; exact absurd h (Nat.not_lt_zero _)
  | succ n ih =>
    intro d hd
    have hch := hrank d
    unfold indexChildren at hch
    rw [getManifests]
    cases hg : imgSrc.GetManifest d with
    | error err => exact ⟨_, rfl⟩
    | ok p =>
      obtain ⟨b, ty⟩ := p
      rw [hg] at hch
      simp only at hch ⊢
      by_cases hm : MIMETypeIsMultiImage ty = true
      · simp only [hm, Bool.not_true, Bool.false_eq_true, if_false] at hch ⊢
        cases hdec : env.OCI1IndexFromManifest b with
        | error err => exact ⟨_, rfl⟩
        | ok maniList =>
          rw [hdec] at hch
          exact getManifestsLoop_returns _ _
            (fun c hc => ih _ (lt_of_lt_of_le (hch c hc) (Nat.lt_succ_iff.mp hd)))
      · simp only [hm, Bool.not_false, if_true]
        cases hdec : env.OCI1FromManifest b with
        | error err => exact ⟨_, rfl⟩
        | ok mani => exact ⟨_, rfl⟩

theorem exCyclicSource_no_fuel :
    ∀ fuel, getManifests exEnv fuel exCyclicSource none = none ∧
      getManifests exEnv fuel exCyclicSource (some "self") = none := by
  intro fuel
  induction fuel with
  | zero => exact ⟨rfl, rfl⟩
  | succ n ih =>
    constructor
    · rw [getManifests]
      show getManifestsLoop (getManifests exEnv n exCyclicSource)
        [exDesc "self", exDesc "bad"] [] = none
      rw [getManifestsLoop]
      show (match getManifests exEnv n exCyclicSource (some "self") with
        | none => none
        | some (_, some err) => some ([], some err)
        | some (iterManifests, none) =>
          getManifestsLoop (getManifests exEnv n exCyclicSource) [exDesc "bad"]
            ([] ++ iterManifests)) = none
      rw [ih.2]
    · rw [getManifests]
      show getManifestsLoop (getManifests exEnv n exCyclicSource)
        [exDesc "self", exDesc "bad"] [] = none
      rw [getManifestsLoop]
      show (match getManifests exEnv n exCyclicSource (some "self") with
        | none => none
        | some (_, some err) => some ([], some err)
        | some (iterManifests, none) =>
          getManifestsLoop (getManifests exEnv n exCyclicSource) [exDesc "bad"]
            ([] ++ iterManifests)) = none
      rw [ih.2]

theorem exRank_decreases :
    ∀ (d : Option Digest) (c : Descriptor),
      c ∈ indexChildren exEnv exTreeSource d → exRank (some c.digest) < exRank d := by
  intro d c hc
  cases d with
  | none => exact Nat.zero_lt_one
  | some x =>
    exfalso
    unfold indexChildren exTreeSource at hc
    simp only at hc
    split at hc
    · simp at hc
    · rename_i b ty heq
      split at heq
      · rename_i h0
        exact Option.noConfusion h0
      · simp only [Except.ok.injEq, Prod.mk.injEq] at heq
        obtain ⟨-, rfl⟩ := heq
        simp [MIMETypeIsMultiImage, MediaTypeImageManifest, DockerV2ListMediaType,
          MediaTypeImageIndex] at hc
      · simp only [Except.ok.injEq, Prod.mk.injEq] at heq
        obtain ⟨-, rfl⟩ := heq
        simp [MIMETypeIsMultiImage, MediaTypeImageManifest, DockerV2ListMediaType,
          MediaTypeImageIndex] at hc
      · simp at heq

/-- C8 (as amended): whenever `getManifests` returns, it returns an error if
and only if the fetch or decode of the starting manifest or of some manifest
reachable from it through index children fails, and next to an error the
returned sequence is nil; and it does return on every source whose index
nesting is well founded (children have a smaller rank than their index). -/
theorem getManifests_all_or_nothing (env : Env) (imgSrc : ImageSource)
    (startingDigest : Option Digest) :
    (∀ fuel res, getManifests env fuel imgSrc startingDigest = some res →
      ((res.2 ≠ none ↔ failsBelow env imgSrc startingDigest) ∧ (res.2 ≠ none → res.1 = []))) ∧
    (∀ rank : Option Digest → Nat,
      (∀ d c, c ∈ indexChildren env imgSrc d → rank (some c.digest) < rank d) →
      ∃ res, getManifests env (rank startingDigest + 1) imgSrc startingDigest = some res) :=
  ⟨fun fuel res h => getManifests_error_iff env imgSrc fuel startingDigest res h,
   fun rank hrank =>
     getManifests_returns_of_rank env imgSrc rank hrank _ startingDigest (Nat.lt_succ_self _)⟩

/-- C8 at an index of two plain manifests: the call returns, without error,
and nothing below the start fails. -/
theorem getManifests_all_or_nothing_witness :
    getManifests exEnv 2 exTreeSource none = some ([exManifest 1, exManifest 2], none) ∧
    (((none : Option Error) ≠ none ↔ failsBelow exEnv exTreeSource none) ∧
      ((none : Option Error) ≠ none → [exManifest 1, exManifest 2] = [])) ∧
    (∃ res, getManifests exEnv (exRank none + 1) exTreeSource none = some res) :=
  ⟨rfl,
   (getManifests_all_or_nothing exEnv exTreeSource none).1 2
     ([exManifest 1, exManifest 2], none) rfl,
   (getManifests_all_or_nothing exEnv exTreeSource none).2 exRank exRank_decreases⟩

/-- C8 as stated fails: on an index that lists itself and then a blob that
cannot be fetched, a manifest reachable from the start fails, yet
`getManifests` returns no error because it never returns. -/
theorem getManifests_error_iff_counterexample :
    ¬ ((∃ res, getManifestsReturns exEnv exCyclicSource none res ∧ res.2 ≠ none) ↔
        failsBelow exEnv exCyclicSource none) := by
  intro h
  have hfail : failsBelow exEnv exCyclicSource none :=
    ⟨some "bad",
     Reachable.step (c := exDesc "bad") (by decide) (Reachable.refl _),
     rfl⟩
  obtain ⟨res, ⟨fuel, hret⟩, -⟩ := h.mpr hfail
  rw [(exCyclicSource_no_fuel fuel).1] at hret
  exact Option.noConfusion hret

/-! ### Effects on the store directory -/

theorem PutBlobFromLocalFile_index (env : Env) (dir : StoreDir) (path : String) :
    (layout.PutBlobFromLocalFile env dir path).2.index = dir.index := by
  unfold layout.PutBlobFromLocalFile
  split
  · rfl
  · simp only
    split
    · rfl
    · split <;> rfl

theorem addLayers_index (env : Env) :
    ∀ (paths : List String) (dir : StoreDir) (acc : List Descriptor),
      (addLayers env dir paths acc).2.index = dir.index := by
  intro paths
  induction paths with
  | nil => intro dir acc; rfl
  | cons path rest ih =>
    intro dir acc
    rw [addLayers]
    have hp := PutBlobFromLocalFile_index env dir path
    split
    · rename_i heq; rw [heq] at hp; exact hp
    · rename_i heq; rw [heq] at hp; rw [ih]; exact hp

theorem PutManifest_index (env : Env) (dir : StoreDir) (m : Bytes) :
    (layout.PutManifest env dir m).2.index = dir.index := by
  unfold layout.PutManifest
  split
  · rfl
  · split <;> rfl

theorem checkForEmptyStanzaFile_index (env : Env) (dir : StoreDir) (key : String × String) :
    (checkForEmptyStanzaFile env dir key).2.index = dir.index := by
  unfold checkForEmptyStanzaFile
  split
  · rfl
  · split <;> rfl

theorem NewImageDestination_index (env : Env) (dir : StoreDir) :
    (layout.NewImageDestination env dir).2.index = dir.index := by
  unfold layout.NewImageDestination
  split
  · rfl
  · split <;> rfl

theorem readIndex_congr (env : Env) {dir dir' : StoreDir} (h : dir'.index = dir.index) :
    readIndex env dir' = readIndex env dir := by
  unfold readIndex
  rw [h]

/-- Every way `Add` can return: with an error and the index file as it was, or
with the digest of the manifest bytes after each step succeeded. -/
theorem Add_cases (env : Env) (fuel : Nat) (dir : StoreDir) (dest : String)
    (paths : List String) (r : Except Error Digest) (dir' : StoreDir)
    (h : ArtifactStore.Add env fuel dir dest paths = some (r, dir')) :
    (∃ err, r = .error err ∧
      (dir'.index = dir.index ∨
        ∃ artifacts e storeIndex rawData raw,
          getArtifacts env fuel dir = some (.ok artifacts) ∧
          GetByNameOrDigest env artifacts dest = .error e ∧
          readIndex env dir = .ok storeIndex ∧
          env.marshalIndex
            { storeIndex with
              manifests := storeIndex.manifests ++ [manifestDescriptorOf env dest rawData] }
            = .ok raw ∧
          env.writeIndexErr = some err ∧
          dir'.index = failedWrite dir.index raw env.writeIndexWritten)) ∨
    (∃ artifacts layers rawData storeIndex raw dirL dirM,
      dest.length ≠ 0 ∧
      (∃ ref, layout.NewReference env dest = .ok ref) ∧
      getArtifacts env fuel dir = some (.ok artifacts) ∧
      (∃ e, GetByNameOrDigest env artifacts dest = .error e) ∧
      addLayers env (layout.NewImageDestination env dir).2 paths [] = (.ok layers, dirL) ∧
      env.marshalManifest (artifactManifestOf layers) = .ok rawData ∧
      layout.PutManifest env dirL rawData = (none, dirM) ∧
      readIndex env dir = .ok storeIndex ∧
      env.marshalIndex
        { storeIndex with
          manifests := storeIndex.manifests ++ [manifestDescriptorOf env dest rawData] }
        = .ok raw ∧
      r = .ok (env.digestFromBytes rawData) ∧
      dir' = { (checkForEmptyStanzaFile env dirM (emptyStanzaKey env rawData)).2 with
               index := some raw }) := by
  unfold ArtifactStore.Add at h
  split at h
  · simp only [Option.some.injEq, Prod.mk.injEq] at h
    exact Or.inl ⟨_, h.1.symm, Or.inl (by rw [← h.2])⟩
  · rename_i hlen
    split at h
    · exact Option.noConfusion h
    · simp only [Option.some.injEq, Prod.mk.injEq] at h
      exact Or.inl ⟨_, h.1.symm, Or.inl (by rw [← h.2])⟩
    · rename_i artifacts hga
      split at h
      · simp only [Option.some.injEq, Prod.mk.injEq] at h
        exact Or.inl ⟨_, h.1.symm, Or.inl (by rw [← h.2])⟩
      · rename_i e hgb
        split at h
        · simp only [Option.some.injEq, Prod.mk.injEq] at h
          exact Or.inl ⟨_, h.1.symm, Or.inl (by rw [← h.2])⟩
        · rename_i ref href
          have hD := NewImageDestination_index env dir
          split at h
          · rename_i err dirD hnd
            rw [hnd] at hD
            simp only [Option.some.injEq, Prod.mk.injEq] at h
            exact Or.inl ⟨_, h.1.symm, Or.inl (by rw [← h.2]; exact hD)⟩
          · rename_i u dirD hnd
            have hL := addLayers_index env paths dirD []
            rw [hnd] at hD
            split at h
            · rename_i err dirL hal
              rw [hal] at hL
              simp only [Option.some.injEq, Prod.mk.injEq] at h
              exact Or.inl ⟨_, h.1.symm, Or.inl (by rw [← h.2]; exact hL.trans hD)⟩
            · rename_i layers dirL hal
              rw [hal] at hL
              simp only at h
              split at h
              · simp only [Option.some.injEq, Prod.mk.injEq] at h
                exact Or.inl ⟨_, h.1.symm, Or.inl (by rw [← h.2]; exact hL.trans hD)⟩
              · rename_i rawData hmm
                have hM := PutManifest_index env dirL rawData
                split at h
                · rename_i err dirM hpm
                  rw [hpm] at hM
                  simp only [Option.some.injEq, Prod.mk.injEq] at h
                  exact Or.inl ⟨_, h.1.symm, Or.inl (by rw [← h.2]; exact hM.trans (hL.trans hD))⟩
                · rename_i dirM hpm
                  rw [hpm] at hM
                  have hS := checkForEmptyStanzaFile_index env dirM (emptyStanzaKey env rawData)
                  have hSD := hS.trans (hM.trans (hL.trans hD))
                  split at h
                  · simp only [Option.some.injEq, Prod.mk.injEq] at h
                    exact Or.inl ⟨_, h.1.symm, Or.inl (by rw [← h.2]; exact hSD)⟩
                  · rename_i storeIndex hri
                    rw [readIndex_congr env hSD] at hri
                    unfold writeIndex at h
                    cases hmi : env.marshalIndex { storeIndex with
                        manifests := storeIndex.manifests ++
                          [manifestDescriptorOf env dest rawData] } with
                    | error err =>
                      simp only [hmi, Option.some.injEq, Prod.mk.injEq] at h
                      exact Or.inl ⟨_, h.1.symm, Or.inl (by rw [← h.2]; exact hSD)⟩
                    | ok raw =>
                      simp only [hmi, writeIndexFile] at h
                      cases hw : env.writeIndexErr with
                      | some err =>
                        simp only [hw, Option.some.injEq, Prod.mk.injEq] at h
                        refine Or.inl ⟨_, h.1.symm,
                          Or.inr ⟨artifacts, e, storeIndex, rawData, raw, hga, hgb, hri, hmi, rfl, ?_⟩⟩
                        rw [← h.2]
                        simp only [hSD]
                      | none =>
                        simp only [hw, Option.some.injEq, Prod.mk.injEq] at h
                        refine Or.inr ⟨artifacts, layers, rawData, storeIndex, raw, dirL, dirM,
                          hlen, ⟨ref, href⟩, hga, ⟨e, hgb⟩, ?_, hmm, hpm, hri, hmi, h.1.symm, ?_⟩
                        · have : dirD = (layout.NewImageDestination env dir).2 := by rw [hnd]
                          rw [← this]; exact hal
                        · rw [← h.2]

/-! ### Store construction -/

theorem NewArtifactStore_index_present (env : Env) (dir : StoreDir) (storePath : String)
    (b : Bytes) (hb : dir.index = some b) :
    (NewArtifactStore env dir storePath).2.index = some b := by
  unfold NewArtifactStore
  cases resolveStorePath env storePath with
  | error err => exact hb
  | ok sp =>
    cases env.mkdirAllErr with
    | some err => exact hb
    | none =>
      cases env.statIndexErr with
      | some err => exact hb
      | none => simp only [hb]

theorem Add_index_isSome (env : Env) (fuel : Nat) (dir : StoreDir) (dest : String)
    (paths : List String) (r : Except Error Digest) (dir' : StoreDir)
    (h : ArtifactStore.Add env fuel dir dest paths = some (r, dir'))
    (hs : dir.index.isSome = true) : dir'.index.isSome = true := by
  rcases Add_cases env fuel dir dest paths r dir' h with
    ⟨err, -, hi | ⟨_, _, _, _, raw, -, -, -, -, -, hi⟩⟩ |
    ⟨_, _, _, _, raw, _, _, -, -, -, -, -, -, -, -, -, -, hd⟩
  · rw [hi]; exact hs
  · rw [hi]
    unfold failedWrite
    cases env.writeIndexWritten with
    | none => exact hs
    | some n => rfl
  · rw [hd]; rfl

theorem runAdds_index_isSome (env : Env) (fuel : Nat) :
    ∀ (ops : List (String × List String)) (dir dir' : StoreDir),
      runAdds env fuel dir ops = some dir' → dir.index.isSome = true →
      dir'.index.isSome = true := by
  intro ops
  induction ops with
  | nil =>
    intro dir dir' h hs
    simp only [runAdds, Option.some.injEq] at h
    rw [← h]; exact hs
  | cons op rest ih =>
    intro dir dir' h hs
    obtain ⟨dest, paths⟩ := op
    rw [runAdds] at h
    split at h
    · exact Option.noConfusion h
    · rename_i r dir1 hadd
      exact ih _ _ h (Add_index_isSome env fuel dir dest paths r dir1 hadd hs)

theorem NewArtifactStore_creates (env : Env) (dir : StoreDir) (storePath : String)
    (habsent : dir.index = none) (hstat : env.statIndexErr = none)
    (hok : ∃ store, (NewArtifactStore env dir storePath).1 = .ok store) :
    ∃ raw, env.marshalIndex Index.zero = .ok raw ∧
      (NewArtifactStore env dir storePath).2.index = some raw := by
  obtain ⟨store, hok⟩ := hok
  unfold NewArtifactStore at hok ⊢
  cases hres : resolveStorePath env storePath with
  | error err => simp [hres] at hok
  | ok sp =>
    cases hmk : env.mkdirAllErr with
    | some err => simp [hres, hmk] at hok
    | none =>
      simp only [hres, hmk, hstat, habsent] at hok ⊢
      unfold createEmptyManifest at hok ⊢
      cases hm : env.marshalIndex Index.zero with
      | error err => simp [hm] at hok
      | ok raw =>
        unfold writeIndexFile at hok ⊢
        cases hw : env.writeIndexErr with
        | some err => simp [hm, hw] at hok
        | none => exact ⟨raw, rfl, by simp⟩

/-- Store construction keeps what is there.  An index file that is present
has the same bytes after construction; when the existence check reports the
file missing and the constructor succeeds, the file it creates is the
serialized empty index, which (the codec reading back what it wrote) decodes
to an index with zero manifests; and after a successful construction followed
by any sequence of `Add` calls, a second construction leaves the index file as
it was. -/
theorem NewArtifactStore_never_resets (env : Env) (dir : StoreDir) (storePath : String) :
    (∀ b, dir.index = some b → (NewArtifactStore env dir storePath).2.index = some b) ∧
    (dir.index = none → env.statIndexErr = none →
      (∃ store, (NewArtifactStore env dir storePath).1 = .ok store) →
      (∀ raw, env.marshalIndex Index.zero = .ok raw → env.unmarshalIndex raw = .ok Index.zero) →
      ∃ index, readIndex env (NewArtifactStore env dir storePath).2 = .ok index ∧
        index.manifests = []) ∧
    (env.statIndexErr = none →
      (∃ store, (NewArtifactStore env dir storePath).1 = .ok store) →
      ∀ (env2 : Env) (fuel : Nat) (ops : List (String × List String)) (dir2 : StoreDir),
        runAdds env fuel (NewArtifactStore env dir storePath).2 ops = some dir2 →
        (NewArtifactStore env2 dir2 storePath).2.index = dir2.index) := by
  have hpresent : env.statIndexErr = none →
      (∃ store, (NewArtifactStore env dir storePath).1 = .ok store) →
      (NewArtifactStore env dir storePath).2.index.isSome = true := by
    intro hstat hok
    cases hi : dir.index with
    | some b => rw [NewArtifactStore_index_present env dir storePath b hi]; rfl
    | none =>
      obtain ⟨raw, -, hraw⟩ := NewArtifactStore_creates env dir storePath hi hstat hok
      rw [hraw]; rfl
  refine ⟨NewArtifactStore_index_present env dir storePath, ?_, ?_⟩
  · intro habsent hstat hok hcodec
    obtain ⟨raw, hm, hraw⟩ := NewArtifactStore_creates env dir storePath habsent hstat hok
    refine ⟨Index.zero, ?_, rfl⟩
    unfold readIndex
    rw [hraw]
    exact hcodec raw hm
  · intro hstat hok env2 fuel ops dir2 hrun
    have h2 := runAdds_index_isSome env fuel ops _ dir2 hrun (hpresent hstat hok)
    obtain ⟨b, hb⟩ := Option.isSome_iff_exists.mp h2
    rw [NewArtifactStore_index_present env2 dir2 storePath b hb, hb]

theorem demoEnv_index_roundtrip :
    ∀ raw, demoEnv.marshalIndex Index.zero = .ok raw →
      demoEnv.unmarshalIndex raw = .ok Index.zero := by
  intro raw h
  have h0 : demoEnv.marshalIndex Index.zero = .ok [0] := rfl
  rw [h0] at h
  simp only [Except.ok.injEq] at h
  subst h
  rfl

/-- On a fresh path construction creates an empty index, an `Add` extends it,
and a second construction leaves the extended index untouched. -/
theorem NewArtifactStore_never_resets_witness :
    (∃ index, readIndex demoEnv (NewArtifactStore demoEnv noDir "/store").2 = .ok index ∧
        index.manifests = []) ∧
    (NewArtifactStore demoEnv (demoDir [1]) "/store").2.index = some [1] ∧
    (∃ dir2, runAdds demoEnv 2 (NewArtifactStore demoEnv noDir "/store").2
        [("demo", ["/tmp/a.txt", "/tmp/b.txt"])] = some dir2 ∧
      dir2.index = some [1] ∧
      (NewArtifactStore demoEnv dir2 "/store").2.index = dir2.index) := by
  refine ⟨(NewArtifactStore_never_resets demoEnv noDir "/store").2.1 rfl rfl ⟨_, rfl⟩
      demoEnv_index_roundtrip,
    (NewArtifactStore_never_resets demoEnv (demoDir [1]) "/store").1 [1] rfl, ?_⟩
  have hs : (runAdds demoEnv 2 (NewArtifactStore demoEnv noDir "/store").2
      [("demo", ["/tmp/a.txt", "/tmp/b.txt"])]).isSome = true := rfl
  have hi : (runAdds demoEnv 2 (NewArtifactStore demoEnv noDir "/store").2
      [("demo", ["/tmp/a.txt", "/tmp/b.txt"])]).map (fun d => d.index) = some (some [1]) := rfl
  obtain ⟨dir2, h⟩ := Option.isSome_iff_exists.mp hs
  rw [h] at hi
  exact ⟨dir2, h, Option.some.inj hi,
    (NewArtifactStore_never_resets demoEnv noDir "/store").2.2 rfl ⟨_, rfl⟩
      demoEnv 2 [("demo", ["/tmp/a.txt", "/tmp/b.txt"])] dir2 h⟩

/-! ### Listing -/

theorem listFrom_descriptors (env : Env) :
    ∀ (mds : List Descriptor) (i : Nat) (lrs : List layout.ListResult),
      layout.listFrom env i mds = .ok lrs →
      lrs.map (fun l => l.ManifestDescriptor) = mds := by
  intro mds
  induction mds with
  | nil =>
    intro i lrs h
    simp only [layout.listFrom, Except.ok.injEq] at h
    subst h; rfl
  | cons md rest ih =>
    intro i lrs h
    rw [layout.listFrom] at h
    split at h
    · simp at h
    · split at h
      · simp at h
      · rename_i ref _ res hrest
        simp only [Except.ok.injEq] at h
        subst h
        simp [ih _ _ hrest]

theorem artifactOf_Manifests (l : layout.ListResult) (manifests : List OCI1) :
    (artifactOf l manifests).Manifests = manifests := by
  unfold artifactOf
  cases l.ManifestDescriptor.annotations.lookup AnnotatedName <;> rfl

theorem artifactOf_Name (l : layout.ListResult) (manifests : List OCI1) :
    (artifactOf l manifests).Name =
      (l.ManifestDescriptor.annotations.lookup AnnotatedName).getD "" := by
  unfold artifactOf
  cases l.ManifestDescriptor.annotations.lookup AnnotatedName <;> rfl

theorem getArtifactsLoop_ok (env : Env) (fuel : Nat) (dir : StoreDir) :
    ∀ (lrs : List layout.ListResult) (acc al : ArtifactList),
      getArtifactsLoop env fuel dir lrs acc = some (.ok al) →
      ∃ al', al = acc ++ al' ∧ List.Forall₂ (resolvesTo env fuel dir) lrs al' := by
  intro lrs
  induction lrs with
  | nil =>
    intro acc al h
    simp only [getArtifactsLoop, Option.some.injEq, Except.ok.injEq] at h
    exact ⟨[], by simp [h], List.Forall₂.nil⟩
  | cons l rest ih =>
    intro acc al h
    rw [getArtifactsLoop] at h
    split at h
    · simp at h
    · rename_i imgSrc hsrc
      split at h
      · simp at h
      · simp at h
      · rename_i manifests hgm
        obtain ⟨al', hal, hrest⟩ := ih _ _ h
        refine ⟨artifactOf l manifests :: al', by simp [hal],
          List.Forall₂.cons ⟨imgSrc, hsrc, ?_, artifactOf_Name l manifests⟩ hrest⟩
        rw [artifactOf_Manifests]; exact hgm

theorem artifactOf_eq (l : layout.ListResult) (a : Artifact)
    (hn : a.Name = (l.ManifestDescriptor.annotations.lookup AnnotatedName).getD "") :
    artifactOf l a.Manifests = a := by
  have h1 := artifactOf_Manifests l a.Manifests
  have h2 := artifactOf_Name l a.Manifests
  rw [← hn] at h2
  cases a with
  | mk ms name =>
    cases hart : artifactOf l ms with
    | mk ms' name' =>
      simp only at h1 h2
      rw [hart] at h1 h2
      simp only at h1 h2
      rw [h1, h2]

theorem getArtifactsLoop_of_resolves (env : Env) (fuel : Nat) (dir : StoreDir)
    {lrs : List layout.ListResult} {al : ArtifactList}
    (h : List.Forall₂ (resolvesTo env fuel dir) lrs al) :
    ∀ acc, getArtifactsLoop env fuel dir lrs acc = some (.ok (acc ++ al)) := by
  induction h with
  | nil => intro acc; simp [getArtifactsLoop]
  | @cons l a lrs al hr _ ih =>
    intro acc
    obtain ⟨imgSrc, hsrc, hgm, hn⟩ := hr
    rw [getArtifactsLoop, hsrc]
    simp only [hgm]
    rw [artifactOf_eq l a hn, ih]
    simp

theorem getArtifacts_ok (env : Env) (fuel : Nat) (dir : StoreDir) (al : ArtifactList)
    (h : getArtifacts env fuel dir = some (.ok al)) :
    ∃ index lrs, readIndex env dir = .ok index ∧ layout.ListLayout env dir = .ok lrs ∧
      lrs.map (fun l => l.ManifestDescriptor) = index.manifests ∧
      List.Forall₂ (resolvesTo env fuel dir) lrs al := by
  unfold getArtifacts at h
  cases hl : layout.ListLayout env dir with
  | error err => simp [hl] at h
  | ok lrs =>
    rw [hl] at h
    obtain ⟨al', hal, hres⟩ := getArtifactsLoop_ok env fuel dir lrs [] al h
    simp only [List.nil_append] at hal
    subst hal
    unfold layout.ListLayout at hl
    cases hi : layout.getIndex env dir with
    | error err => simp [hi] at hl
    | ok index =>
      rw [hi] at hl
      exact ⟨index, lrs, hi, rfl, listFrom_descriptors env _ _ _ hl, hres⟩

theorem resolvesTo_names (env : Env) (fuel : Nat) (dir : StoreDir)
    {lrs : List layout.ListResult} {al : ArtifactList}
    (h : List.Forall₂ (resolvesTo env fuel dir) lrs al) :
    al.map (fun a => a.Name) =
      lrs.map (fun l => (l.ManifestDescriptor.annotations.lookup AnnotatedName).getD "") := by
  induction h with
  | nil => rfl
  | cons hr _ ih =>
    obtain ⟨_, _, _, hn⟩ := hr
    simp [hn, ih]

theorem newReference_ok (env : Env) (image : String) (sourceIndex : Int)
    (ref : layout.Reference) (h : layout.newReference env image sourceIndex = .ok ref) :
    env.validImageName image = true ∧ ref = { image := image, sourceIndex := sourceIndex } := by
  unfold layout.newReference at h
  by_cases hv : env.validImageName image = true
  · simp only [hv, if_true, Except.ok.injEq] at h
    exact ⟨hv, h.symm⟩
  · simp [hv] at h

theorem findByRefName_some (image : String) :
    ∀ (mds : List Descriptor) (desc : Descriptor),
      layout.findByRefName image mds = some desc →
      desc ∈ mds ∧ desc.annotations.lookup AnnotationRefName = some image := by
  intro mds
  induction mds with
  | nil => intro desc h; simp [layout.findByRefName] at h
  | cons m rest ih =>
    intro desc h
    rw [layout.findByRefName] at h
    split at h
    · rename_i hc
      simp only [Option.some.injEq] at h
      subst h
      exact ⟨List.mem_cons_self _ _, hc.1⟩
    · obtain ⟨hmem, hlk⟩ := ih _ h
      exact ⟨List.mem_cons_of_mem _ hmem, hlk⟩

theorem nodup_filterMap_unique {α β : Type} (f : α → Option β) :
    ∀ (l : List α), (l.filterMap f).Nodup →
      ∀ a b n, a ∈ l → b ∈ l → f a = some n → f b = some n → a = b := by
  intro l
  induction l with
  | nil => intro _ a b n ha; simp at ha
  | cons x xs ih =>
    intro hnd a b n ha hb hfa hfb
    cases hfx : f x with
    | none =>
      rw [List.filterMap_cons_none hfx] at hnd
      have ha' : a ∈ xs := by
        rcases List.mem_cons.mp ha with rfl | h
        · rw [hfx] at hfa; exact Option.noConfusion hfa
        · exact h
      have hb' : b ∈ xs := by
        rcases List.mem_cons.mp hb with rfl | h
        · rw [hfx] at hfb; exact Option.noConfusion hfb
        · exact h
      exact ih hnd a b n ha' hb' hfa hfb
    | some y =>
      rw [List.filterMap_cons_some hfx] at hnd
      obtain ⟨hy, hnd'⟩ := List.nodup_cons.mp hnd
      rcases List.mem_cons.mp ha with rfl | ha'
      · rcases List.mem_cons.mp hb with rfl | hb'
        · rfl
        · exfalso
          apply hy
          rw [hfa] at hfx
          simp only [Option.some.injEq] at hfx
          subst hfx
          exact List.mem_filterMap.mpr ⟨b, hb', hfb⟩
      · rcases List.mem_cons.mp hb with rfl | hb'
        · exfalso
          apply hy
          rw [hfb] at hfx
          simp only [Option.some.injEq] at hfx
          subst hfx
          exact List.mem_filterMap.mpr ⟨a, ha', hfa⟩
        · exact ih hnd' a b n ha' hb' hfa hfb

/-- With pairwise distinct names in the index, the reference `layout.List`
builds for an entry leads back to that entry's own descriptor. -/
theorem listFrom_own_descriptor (env : Env) (dir : StoreDir) (index : Index)
    (hidx : layout.getIndex env dir = .ok index) (hnd : (entryNames index).Nodup) :
    ∀ (mds pre : List Descriptor) (lrs : List layout.ListResult),
      index.manifests = pre ++ mds →
      layout.listFrom env pre.length mds = .ok lrs →
      List.Forall₂ (fun md l => l.ManifestDescriptor = md ∧
        ∀ desc, layout.getManifestDescriptor env dir l.Reference = .ok desc → desc = md)
        mds lrs := by
  intro mds
  induction mds with
  | nil =>
    intro pre lrs _ h
    simp only [layout.listFrom, Except.ok.injEq] at h
    subst h
    exact List.Forall₂.nil
  | cons md rest ih =>
    intro pre lrs hsplit h
    rw [layout.listFrom] at h
    split at h
    · simp at h
    · rename_i ref href
      split at h
      · simp at h
      · rename_i res hrest
        simp only [Except.ok.injEq] at h
        subst h
        obtain ⟨-, hr⟩ := newReference_ok env _ _ ref href
        have htail := ih (pre ++ [md]) res (by rw [hsplit]; simp)
          (by rw [List.length_append]; exact hrest)
        refine List.Forall₂.cons ⟨rfl, ?_⟩ htail
        intro desc hdesc
        simp only at hdesc
        unfold layout.getManifestDescriptor at hdesc
        rw [hidx, hr] at hdesc
        simp only at hdesc
        by_cases hname : (md.annotations.lookup AnnotationRefName).getD "" = ""
        · simp only [hname, if_true, ne_eq, not_true_eq_false, false_and, if_false] at hdesc
          have hne : ¬ ((pre.length : Int) = -1) := by omega
          simp only [hne, not_false_eq_true, if_true, Int.toNat_ofNat] at hdesc
          have hget : index.manifests.get? pre.length = some md := by
            rw [hsplit, List.get?_eq_getElem?, List.getElem?_append_right (le_refl _)]
            simp
          rw [hget] at hdesc
          simp only [Int.natCast_nonneg, if_true, Except.ok.injEq] at hdesc
          exact hdesc.symm
        · simp only [hname, if_false, ne_eq, not_false_eq_true, not_true_eq_false, and_false]
            at hdesc
          cases hf : layout.findByRefName ((md.annotations.lookup AnnotationRefName).getD "")
              index.manifests with
          | none => rw [hf] at hdesc; exact Except.noConfusion hdesc
          | some d =>
            rw [hf] at hdesc
            simp only [Except.ok.injEq] at hdesc
            subst hdesc
            obtain ⟨hmem, hlk⟩ := findByRefName_some _ _ _ hf
            have hmd : md.annotations.lookup AnnotationRefName =
                some ((md.annotations.lookup AnnotationRefName).getD "") := by
              cases hl : md.annotations.lookup AnnotationRefName with
              | none => rw [hl] at hname; exact absurd rfl hname
              | some n => rfl
            have hmdmem : md ∈ index.manifests := by rw [hsplit]; simp
            exact nodup_filterMap_unique _ _ hnd d md _ hmem hmdmem hlk hmd

theorem forall₂_comp {α β γ : Type} {R : α → β → Prop} {S : β → γ → Prop}
    {T : α → γ → Prop} (hT : ∀ a b c, R a b → S b c → T a c) :
    ∀ {l₁ : List α} {l₂ : List β} {l₃ : List γ},
      List.Forall₂ R l₁ l₂ → List.Forall₂ S l₂ l₃ → List.Forall₂ T l₁ l₃ := by
  intro l₁ l₂ l₃ h₁
  induction h₁ generalizing l₃ with
  | nil => intro h₂; cases h₂; exact List.Forall₂.nil
  | cons hr _ ih =>
    intro h₂
    cases h₂ with
    | cons hs htl => exact List.Forall₂.cons (hT _ _ _ hr hs) (ih htl)

theorem NewImageSource_ok (env : Env) (dir : StoreDir) (ref : layout.Reference)
    (imgSrc : ImageSource) (h : layout.NewImageSource env dir ref = .ok imgSrc) :
    ∃ index desc, layout.getIndex env dir = .ok index ∧
      layout.getManifestDescriptor env dir ref = .ok desc ∧
      imgSrc = { GetManifest := layout.GetManifest env dir index desc } := by
  unfold layout.NewImageSource at h
  cases hidx : layout.getIndex env dir with
  | error err => simp [hidx] at h
  | ok index =>
    rw [hidx] at h
    cases hd : layout.getManifestDescriptor env dir ref with
    | error err => simp [hd] at h
    | ok desc =>
      rw [hd] at h
      simp only [Except.ok.injEq] at h
      exact ⟨index, desc, rfl, rfl, h.symm⟩

theorem resolvesFromEntry_of_unique (env : Env) (fuel : Nat) (dir : StoreDir) (index : Index)
    (lrs : List layout.ListResult) (al : ArtifactList)
    (hidx : layout.getIndex env dir = .ok index) (hnd : (entryNames index).Nodup)
    (hl : layout.ListLayout env dir = .ok lrs)
    (hres : List.Forall₂ (resolvesTo env fuel dir) lrs al) :
    List.Forall₂ (resolvesFromEntry env fuel dir index) index.manifests al := by
  have hlf : layout.listFrom env 0 index.manifests = .ok lrs := by
    unfold layout.ListLayout at hl
    rw [hidx] at hl
    exact hl
  have hown := listFrom_own_descriptor env dir index hidx hnd index.manifests [] lrs rfl hlf
  refine forall₂_comp ?_ hown hres
  rintro md l a ⟨hmd, hdesc⟩ ⟨imgSrc, hsrc, hgm, hn⟩
  obtain ⟨index', desc, hidx', hd, rfl⟩ := NewImageSource_ok env dir _ imgSrc hsrc
  rw [hidx] at hidx'
  simp only [Except.ok.injEq] at hidx'
  subst hidx'
  rw [hdesc desc hd] at hgm
  exact ⟨hgm, by rw [hn, hmd]⟩

/-- C9 (as amended): whenever `List` returns a list, it holds one artifact per
entry of the store index, in index order, each named by its entry's name
annotation (empty when there is none) and holding the manifests
`getManifests` returns on the image source of the entry's reference; when the
names in the index are pairwise distinct, those are the leaf manifests
resolved from the i-th entry's own descriptor.  And `List` does return that
list once the index decodes and every entry resolves within the fuel. -/
theorem List_in_index_order (env : Env) (fuel : Nat) (dir : StoreDir) :
    (∀ al, ArtifactStore.List env fuel dir = some (.ok al) →
      ∃ index lrs, readIndex env dir = .ok index ∧ layout.ListLayout env dir = .ok lrs ∧
        lrs.map (fun l => l.ManifestDescriptor) = index.manifests ∧
        List.Forall₂ (resolvesTo env fuel dir) lrs al ∧
        al.length = index.manifests.length ∧
        al.map (fun a => a.Name) =
          index.manifests.map (fun md => (md.annotations.lookup AnnotatedName).getD "") ∧
        ((entryNames index).Nodup →
          List.Forall₂ (resolvesFromEntry env fuel dir index) index.manifests al)) ∧
    (∀ lrs al, layout.ListLayout env dir = .ok lrs →
      List.Forall₂ (resolvesTo env fuel dir) lrs al →
      ArtifactStore.List env fuel dir = some (.ok al)) := by
  constructor
  · intro al h
    obtain ⟨index, lrs, hri, hl, hmd, hres⟩ := getArtifacts_ok env fuel dir al h
    refine ⟨index, lrs, hri, hl, hmd, hres, ?_, ?_, ?_⟩
    · rw [← hmd, List.length_map]
      exact hres.length_eq.symm
    · rw [resolvesTo_names env fuel dir hres, ← hmd, List.map_map]
      rfl
    · intro hnd
      exact resolvesFromEntry_of_unique env fuel dir index lrs al hri hnd hl hres
  · intro lrs al hl hres
    unfold ArtifactStore.List getArtifacts
    rw [hl]
    have := getArtifactsLoop_of_resolves env fuel dir hres []
    simpa using this

/-- C9 on a store with the entries `demo` and `solo`: two artifacts, in that
order, each with the manifest its own entry points at. -/
theorem List_in_index_order_witness :
    ArtifactStore.List demoEnv 2 (demoDir [3]) =
      some (.ok [{ Manifests := [demoManifest], Name := "demo" },
                 { Manifests := [soloManifest], Name := "solo" }]) ∧
    (entryNames (demoIndex [demoEntry "demo", soloEntry "solo"])).Nodup ∧
    List.Forall₂
      (resolvesFromEntry demoEnv 2 (demoDir [3]) (demoIndex [demoEntry "demo", soloEntry "solo"]))
      [demoEntry "demo", soloEntry "solo"]
      [{ Manifests := [demoManifest], Name := "demo" },
       { Manifests := [soloManifest], Name := "solo" }] := by
  have hl : ArtifactStore.List demoEnv 2 (demoDir [3]) =
      some (.ok [{ Manifests := [demoManifest], Name := "demo" },
                 { Manifests := [soloManifest], Name := "solo" }]) := rfl
  have hnd : (entryNames (demoIndex [demoEntry "demo", soloEntry "solo"])).Nodup := by decide
  obtain ⟨index, lrs, hri, -, -, -, -, -, hown⟩ :=
    (List_in_index_order demoEnv 2 (demoDir [3])).1 _ hl
  have hidx : index = demoIndex [demoEntry "demo", soloEntry "solo"] := by
    have h0 : readIndex demoEnv (demoDir [3]) =
        .ok (demoIndex [demoEntry "demo", soloEntry "solo"]) := rfl
    rw [h0] at hri
    exact (Except.ok.inj hri).symm
  subst hidx
  exact ⟨hl, hnd, hown hnd⟩

/-- C9 as stated fails: the index holds two entries with the same name `dup`,
the first pointing at the two-file manifest and the second at the one-file
manifest; `List` returns two artifacts, and the second holds the manifest of
the first entry, not the one resolved from its own entry. -/
theorem List_duplicate_names_counterexample :
    ArtifactStore.List demoEnv 2 (demoDir [4]) =
      some (.ok [{ Manifests := [demoManifest], Name := "dup" },
                 { Manifests := [demoManifest], Name := "dup" }]) ∧
    readIndex demoEnv (demoDir [4]) = .ok (demoIndex [demoEntry "dup", soloEntry "dup"]) ∧
    getManifests demoEnv 2
      { GetManifest := layout.GetManifest demoEnv (demoDir [4])
          (demoIndex [demoEntry "dup", soloEntry "dup"]) (soloEntry "dup") } none =
      some ([soloManifest], none) ∧
    soloManifest ≠ demoManifest :=
  ⟨rfl, rfl, rfl, by decide⟩

/-! ### Add: the name check -/

theorem getArtifacts_names (env : Env) (fuel : Nat) (dir : StoreDir) (al : ArtifactList)
    (h : getArtifacts env fuel dir = some (.ok al)) :
    ∃ index, readIndex env dir = .ok index ∧
      al.map (fun a => a.Name) =
        index.manifests.map (fun md => (md.annotations.lookup AnnotatedName).getD "") := by
  obtain ⟨index, lrs, hri, -, hmd, hres⟩ := getArtifacts_ok env fuel dir al h
  refine ⟨index, hri, ?_⟩
  rw [resolvesTo_names env fuel dir hres, ← hmd, List.map_map]
  rfl

theorem GetByNameOrDigest_name_found (env : Env) (al : ArtifactList) (dest : String)
    (hmem : ∃ a ∈ al, a.Name = dest) :
    ∃ r, GetByNameOrDigest env al dest = .ok r := by
  unfold GetByNameOrDigest
  cases hf : al.find? (fun a => a.Name == dest) with
  | some a => exact ⟨_, rfl⟩
  | none =>
    exfalso
    obtain ⟨a, ha, hn⟩ := hmem
    have := List.find?_eq_none.mp hf a ha
    simp [hn] at this

/-- C1 (as amended): when `dest` is a non-empty name and listing the store
succeeds, with `dest` already the name of a listed artifact, whatever the shape
of the name, `Add` fails with the already-exists error; when listing the store
fails, `Add` fails with the error of the listing instead.  Either way the
store directory (index file and blob pool) is left exactly as it was: the
failure comes before any write. -/
theorem Add_existing_name_rejected (env : Env) (fuel : Nat) (dir : StoreDir) (dest : String)
    (paths : List String)
    (hne : dest.length ≠ 0) :
    (∀ al, getArtifacts env fuel dir = some (.ok al) → (∃ a ∈ al, a.Name = dest) →
      ArtifactStore.Add env fuel dir dest paths = some (.error (.alreadyExists dest), dir)) ∧
    (∀ err, getArtifacts env fuel dir = some (.error err) →
      ArtifactStore.Add env fuel dir dest paths = some (.error err, dir)) := by
  constructor
  · intro al hlist hmem
    obtain ⟨r, hr⟩ := GetByNameOrDigest_name_found env al dest hmem
    unfold ArtifactStore.Add
    simp only [hne, if_false, hlist, hr]
  · intro err hlist
    unfold ArtifactStore.Add
    simp only [hne, if_false, hlist]

/-- C1 on a store holding `demo` and `solo`: adding either name again is
rejected and nothing is written. -/
theorem Add_existing_name_rejected_witness :
    ArtifactStore.Add demoEnv 2 (demoDir [3]) "demo" ["/tmp/a.txt"] =
      some (.error (.alreadyExists "demo"), demoDir [3]) ∧
    ArtifactStore.Add demoEnv 2 (demoDir [3]) "solo" ["/tmp/a.txt", "/tmp/b.txt"] =
      some (.error (.alreadyExists "solo"), demoDir [3]) :=
  ⟨(Add_existing_name_rejected demoEnv 2 (demoDir [3]) "demo" ["/tmp/a.txt"] (by decide)).1
     [{ Manifests := [demoManifest], Name := "demo" },
      { Manifests := [soloManifest], Name := "solo" }]
     rfl ⟨_, List.mem_cons_self _ _, rfl⟩,
   (Add_existing_name_rejected demoEnv 2 (demoDir [3]) "solo" ["/tmp/a.txt", "/tmp/b.txt"]
     (by decide)).1
     [{ Manifests := [demoManifest], Name := "demo" },
      { Manifests := [soloManifest], Name := "solo" }]
     rfl ⟨_, List.mem_cons_of_mem _ (List.mem_cons_self _ _), rfl⟩⟩

/-- C1 as stated fails: the index holds an entry named `demo` whose manifest
blob is missing from the blob pool, so listing the store fails; `Add` of
`demo` returns the error of the listing, not the already-exists error (and
writes nothing). -/
theorem Add_existing_name_listing_fails_counterexample :
    readIndex demoEnv { demoEmptyDir with index := some [1] } =
      .ok (demoIndex [demoEntry "demo"]) ∧
    entryNames (demoIndex [demoEntry "demo"]) = ["demo"] ∧
    ArtifactStore.List demoEnv 2 { demoEmptyDir with index := some [1] } =
      some (.error (.external "manifest blob: no such file or directory")) ∧
    ArtifactStore.Add demoEnv 2 { demoEmptyDir with index := some [1] } "demo" ["/tmp/a.txt"] =
      some (.error (.external "manifest blob: no such file or directory"),
        { demoEmptyDir with index := some [1] }) :=
  ⟨rfl, rfl, rfl, rfl⟩

theorem GetByNameOrDigest_name_absent (env : Env) (al : ArtifactList) (dest : String)
    (e : Error) (herr : GetByNameOrDigest env al dest = .error e) :
    ∀ a ∈ al, a.Name ≠ dest := by
  unfold GetByNameOrDigest at herr
  cases hf : al.find? (fun a => a.Name == dest) with
  | some a => simp [hf] at herr
  | none =>
    intro a ha hn
    have := List.find?_eq_none.mp hf a ha
    simp [hn] at this

theorem entryNames_not_mem (index : Index) (dest : String)
    (h : ∀ n ∈ index.manifests.map
      (fun md => (md.annotations.lookup AnnotatedName).getD ""), n ≠ dest) :
    dest ∉ entryNames index := by
  intro hmem
  unfold entryNames at hmem
  obtain ⟨md, hmd, hlk⟩ := List.mem_filterMap.mp hmem
  refine h _ (List.mem_map.mpr ⟨md, hmd, rfl⟩) ?_
  have : md.annotations.lookup AnnotatedName = some dest := hlk
  rw [this]; rfl

theorem Add_name_fresh (env : Env) (fuel : Nat) (dir : StoreDir) (dest : String)
    (al : ArtifactList) (storeIndex : Index) (e : Error)
    (hga : getArtifacts env fuel dir = some (.ok al))
    (hgb : GetByNameOrDigest env al dest = .error e)
    (hri : readIndex env dir = .ok storeIndex) :
    dest ∉ entryNames storeIndex := by
  obtain ⟨index, hri', hnames⟩ := getArtifacts_names env fuel dir al hga
  rw [hri] at hri'
  simp only [Except.ok.injEq] at hri'
  subst hri'
  have habs := GetByNameOrDigest_name_absent env al dest e hgb
  apply entryNames_not_mem
  intro n hn'
  rw [← hnames] at hn'
  obtain ⟨a, ha, rfl⟩ := List.mem_map.mp hn'
  exact habs a ha

theorem manifestDescriptorOf_name (env : Env) (dest : String) (rawData : Bytes) :
    (manifestDescriptorOf env dest rawData).annotations.lookup AnnotationRefName = some dest := by
  simp [manifestDescriptorOf, List.lookup]

theorem entryNames_append (index : Index) (entry : Descriptor) (dest : String)
    (hentry : entry.annotations.lookup AnnotationRefName = some dest) :
    entryNames { index with manifests := index.manifests ++ [entry] } =
      entryNames index ++ [dest] := by
  unfold entryNames
  simp [List.filterMap_append, hentry]

theorem entryNames_append_nodup (index : Index) (entry : Descriptor) (dest : String)
    (hentry : entry.annotations.lookup AnnotationRefName = some dest)
    (hnd : (entryNames index).Nodup) (hfresh : dest ∉ entryNames index) :
    (entryNames { index with manifests := index.manifests ++ [entry] }).Nodup := by
  rw [entryNames_append index entry dest hentry, List.nodup_append]
  refine ⟨hnd, List.nodup_singleton _, ?_⟩
  intro x hx hx'
  rw [List.mem_singleton] at hx'
  subst hx'
  exact hfresh hx

/-- C2: name uniqueness is an invariant of the index preserved by `Add`.  When
the entries of the index carry pairwise distinct names before the call, they
do after it, for every name (digest-shaped or not) and every path list,
whether `Add` succeeds, fails before the index is rewritten, or fails while
rewriting it (the index codec reading back what it wrote and not decoding a
truncated serialization); after a success the name is among them. -/
theorem Add_preserves_unique_names (env : Env) (fuel : Nat) (dir : StoreDir) (dest : String)
    (paths : List String) (r : Except Error Digest) (dir' : StoreDir)
    (hcodec : ∀ i b, env.marshalIndex i = .ok b → env.unmarshalIndex b = .ok i)
    (htrunc : ∀ i b n i', env.marshalIndex i = .ok b → n < b.length →
      env.unmarshalIndex (b.take n) ≠ .ok i')
    (huniq : namesUnique env dir)
    (h : ArtifactStore.Add env fuel dir dest paths = some (r, dir')) :
    namesUnique env dir' ∧
    (∀ D, r = .ok D → ∃ index, readIndex env dir' = .ok index ∧ dest ∈ entryNames index) := by
  rcases Add_cases env fuel dir dest paths r dir' h with
    ⟨err, hr, hi | ⟨al, e, storeIndex, rawData, raw, hga, hgb, hri, hmi, -, hi⟩⟩ |
    ⟨al, layers, rawData, storeIndex, raw, dirL, dirM, -, -, hga, ⟨e, hgb⟩, -, -, -,
      hri, hmi, hr, hd⟩
  · refine ⟨?_, fun D hD => by rw [hr] at hD; exact Except.noConfusion hD⟩
    intro index hidx
    rw [readIndex_congr env hi] at hidx
    exact huniq index hidx
  · refine ⟨?_, fun D hD => by rw [hr] at hD; exact Except.noConfusion hD⟩
    intro index hidx
    unfold readIndex at hidx
    rw [hi] at hidx
    unfold failedWrite at hidx
    cases hw : env.writeIndexWritten with
    | none =>
      rw [hw] at hidx
      exact huniq index hidx
    | some n =>
      rw [hw] at hidx
      simp only at hidx
      by_cases hn : n < raw.length
      · exact absurd hidx (htrunc _ raw n index hmi hn)
      · rw [List.take_of_length_le (Nat.le_of_not_lt hn), hcodec _ _ hmi] at hidx
        simp only [Except.ok.injEq] at hidx
        subst hidx
        exact entryNames_append_nodup storeIndex _ dest (manifestDescriptorOf_name env dest rawData)
          (huniq storeIndex hri) (Add_name_fresh env fuel dir dest al storeIndex e hga hgb hri)
  · have hread : readIndex env dir' = .ok { storeIndex with
        manifests := storeIndex.manifests ++ [manifestDescriptorOf env dest rawData] } := by
      unfold readIndex
      rw [hd]
      exact hcodec _ _ hmi
    refine ⟨?_, fun D _ => ⟨_, hread, ?_⟩⟩
    · intro index hidx
      rw [hread] at hidx
      simp only [Except.ok.injEq] at hidx
      subst hidx
      exact entryNames_append_nodup storeIndex _ dest (manifestDescriptorOf_name env dest rawData)
        (huniq storeIndex hri) (Add_name_fresh env fuel dir dest al storeIndex e hga hgb hri)
    · rw [entryNames_append storeIndex _ dest (manifestDescriptorOf_name env dest rawData)]
      exact List.mem_append_right _ (List.mem_singleton.mpr rfl)

theorem demoEnv_index_codec :
    ∀ i b, demoEnv.marshalIndex i = .ok b → demoEnv.unmarshalIndex b = .ok i := by
  intro i b h
  simp only [demoEnv, demoIndexTable, List.find?] at h
  split at h
  · rename_i p hp
    simp only [Except.ok.injEq] at h
    subst h
    repeat' split at hp
    all_goals first
      | (simp only [Option.some.injEq] at hp
         subst hp
         rename_i heq
         have := eq_of_beq heq
         subst this
         rfl)
      | exact Option.noConfusion hp
  · exact Except.noConfusion h

theorem demoEnv_index_truncated :
    ∀ i b n i', demoEnv.marshalIndex i = .ok b → n < b.length →
      demoEnv.unmarshalIndex (b.take n) ≠ .ok i' := by
  intro i b n i' h hn
  simp only [demoEnv, demoIndexTable, List.find?] at h
  split at h
  · rename_i p hp
    simp only [Except.ok.injEq] at h
    subst h
    repeat' split at hp
    all_goals first
      | (simp only [Option.some.injEq] at hp
         subst hp
         simp only [List.length_singleton, Nat.lt_one_iff] at hn
         subst hn
         intro hc
         exact Except.noConfusion hc)
      | exact Option.noConfusion hp
  · exact Except.noConfusion h

theorem namesUnique_of_index (env : Env) (dir : StoreDir) (index : Index)
    (hri : readIndex env dir = .ok index) (hnd : (entryNames index).Nodup) :
    namesUnique env dir := by
  intro index' hri'
  rw [hri] at hri'
  simp only [Except.ok.injEq] at hri'
  subst hri'
  exact hnd

/-- C2 on a store holding `demo`: adding `solo` keeps the names distinct, and
so does an `Add` of `solo` whose rewrite of the index file fails after the
file was truncated. -/
theorem Add_preserves_unique_names_witness :
    namesUnique demoEnv (demoDir [1]) ∧
    (∃ dir', ArtifactStore.Add demoEnv 2 (demoDir [1]) "solo" ["/tmp/a.txt"]
        = some (.ok "sha256:ee", dir') ∧ namesUnique demoEnv dir' ∧
      ∃ index, readIndex demoEnv dir' = .ok index ∧ "solo" ∈ entryNames index) ∧
    (∃ dir', ArtifactStore.Add demoEnvWriteFails 2 (demoDir [1]) "solo" ["/tmp/a.txt"]
        = some (.error (.external "write index.json: no space left on device"), dir') ∧
      dir'.index = some [] ∧ namesUnique demoEnvWriteFails dir') := by
  have hu : namesUnique demoEnv (demoDir [1]) :=
    namesUnique_of_index demoEnv (demoDir [1]) (demoIndex [demoEntry "demo"]) rfl (by decide)
  refine ⟨hu, ?_, ?_⟩
  · have h : ArtifactStore.Add demoEnv 2 (demoDir [1]) "solo" ["/tmp/a.txt"] =
        some (.ok "sha256:ee", dirAfterAdd demoEnv 2 (demoDir [1]) "solo" ["/tmp/a.txt"]) := rfl
    have := Add_preserves_unique_names demoEnv 2 (demoDir [1]) "solo" ["/tmp/a.txt"] _ _
      demoEnv_index_codec demoEnv_index_truncated hu h
    exact ⟨_, h, this.1, this.2 _ rfl⟩
  · have h : ArtifactStore.Add demoEnvWriteFails 2 (demoDir [1]) "solo" ["/tmp/a.txt"] =
        some (.error (.external "write index.json: no space left on device"),
          dirAfterAdd demoEnvWriteFails 2 (demoDir [1]) "solo" ["/tmp/a.txt"]) := rfl
    have := Add_preserves_unique_names demoEnvWriteFails 2 (demoDir [1]) "solo" ["/tmp/a.txt"] _ _
      demoEnv_index_codec demoEnv_index_truncated hu h
    exact ⟨_, h, rfl, this.1⟩

/-! ### Add: the manifest and the index entry -/

/-- C3: for every successful `Add`, the returned digest is the digest of the
serialized manifest bytes, and the index file afterwards is the serialization
of the index read back from the file (which no earlier step has changed) with
exactly one descriptor appended at the end; that descriptor has the returned
digest, the byte length of the serialized manifest as size, the image-manifest
media type and the name as its name annotation. -/
theorem Add_appends_entry (env : Env) (fuel : Nat) (dir : StoreDir) (dest : String)
    (paths : List String) (D : Digest) (dir' : StoreDir)
    (h : ArtifactStore.Add env fuel dir dest paths = some (.ok D, dir')) :
    ∃ layers rawData storeIndex raw entry,
      env.marshalManifest (artifactManifestOf layers) = .ok rawData ∧
      D = env.digestFromBytes rawData ∧
      readIndex env dir = .ok storeIndex ∧
      env.marshalIndex { storeIndex with manifests := storeIndex.manifests ++ [entry] }
        = .ok raw ∧
      dir'.index = some raw ∧
      entry.digest = D ∧
      entry.size = (rawData.length : Int) ∧
      entry.mediaType = MediaTypeImageManifest ∧
      entry.annotations.lookup AnnotationRefName = some dest := by
  rcases Add_cases env fuel dir dest paths _ dir' h with
    ⟨err, he, -⟩ | ⟨al, layers, rawData, storeIndex, raw, dirL, dirM, -, -, -, -, -, hmm, -,
      hri, hmi, hD, hd⟩
  · exact Except.noConfusion he
  · simp only [Except.ok.injEq] at hD
    refine ⟨layers, rawData, storeIndex, raw, manifestDescriptorOf env dest rawData,
      hmm, hD, hri, hmi, by rw [hd], hD.symm, rfl, rfl, ?_⟩
    simp [manifestDescriptorOf, List.lookup]

/-- C3 on an empty store: adding `demo` returns the digest of the manifest bytes
and the index file becomes the serialization of the one-entry index. -/
theorem Add_appends_entry_witness :
    ∃ dir', ArtifactStore.Add demoEnv 2 (demoDir [0]) "demo" ["/tmp/a.txt", "/tmp/b.txt"]
        = some (.ok "sha256:cc", dir') ∧
      ∃ layers rawData storeIndex raw entry,
        demoEnv.marshalManifest (artifactManifestOf layers) = .ok rawData ∧
        "sha256:cc" = demoEnv.digestFromBytes rawData ∧
        readIndex demoEnv (demoDir [0]) = .ok storeIndex ∧
        demoEnv.marshalIndex { storeIndex with manifests := storeIndex.manifests ++ [entry] }
          = .ok raw ∧
        dir'.index = some raw ∧
        entry.digest = "sha256:cc" ∧
        entry.size = (rawData.length : Int) ∧
        entry.mediaType = MediaTypeImageManifest ∧
        entry.annotations.lookup AnnotationRefName = some "demo" := by
  have hs : (ArtifactStore.Add demoEnv 2 (demoDir [0]) "demo"
      ["/tmp/a.txt", "/tmp/b.txt"]).isSome = true := rfl
  have hr : (ArtifactStore.Add demoEnv 2 (demoDir [0]) "demo"
      ["/tmp/a.txt", "/tmp/b.txt"]).map (fun p => p.1) = some (.ok "sha256:cc") := rfl
  obtain ⟨⟨r, dir'⟩, h⟩ := Option.isSome_iff_exists.mp hs
  rw [h] at hr
  have hr' : r = .ok "sha256:cc" := Option.some.inj hr
  subst hr'
  exact ⟨dir', h, Add_appends_entry demoEnv 2 (demoDir [0]) "demo"
    ["/tmp/a.txt", "/tmp/b.txt"] "sha256:cc" dir' h⟩

theorem addLayers_ok (env : Env) :
    ∀ (paths : List String) (dir : StoreDir) (acc layers : List Descriptor) (dir' : StoreDir),
      addLayers env dir paths acc = (.ok layers, dir') →
      ∃ new, layers = acc ++ new ∧ List.Forall₂ (layerOfPath env) paths new := by
  intro paths
  induction paths with
  | nil =>
    intro dir acc layers dir' h
    simp only [addLayers, Prod.mk.injEq, Except.ok.injEq] at h
    exact ⟨[], by simp [h.1], List.Forall₂.nil⟩
  | cons path rest ih =>
    intro dir acc layers dir' h
    rw [addLayers] at h
    split at h
    · simp at h
    · rename_i newBlobDigest newBlobSize dir1 hput
      obtain ⟨new, hnew, hall⟩ := ih _ _ _ _ h
      refine ⟨_ :: new, by simp [hnew], List.Forall₂.cons ⟨dir, newBlobDigest, newBlobSize, ?_, rfl⟩
        hall⟩
      rw [hput]

/-- C4: the manifest a successful `Add` serializes has exactly one layer per
path, in the order of the paths, without sorting or de-duplication: the i-th
layer carries the digest and size a blob write of the i-th file returns and
the base filename of the i-th path as title; its config is the shared
empty-JSON descriptor and its schema version is 2. -/
theorem Add_manifest_layers (env : Env) (fuel : Nat) (dir : StoreDir) (dest : String)
    (paths : List String) (D : Digest) (dir' : StoreDir)
    (h : ArtifactStore.Add env fuel dir dest paths = some (.ok D, dir')) :
    ∃ (artifactManifest : Manifest) (rawData : Bytes),
      env.marshalManifest artifactManifest = .ok rawData ∧
      D = env.digestFromBytes rawData ∧
      artifactManifest.layers.length = paths.length ∧
      List.Forall₂ (layerOfPath env) paths artifactManifest.layers ∧
      artifactManifest.config = DescriptorEmptyJSON ∧
      artifactManifest.schemaVersion = 2 := by
  rcases Add_cases env fuel dir dest paths _ dir' h with
    ⟨err, he, -⟩ | ⟨al, layers, rawData, storeIndex, raw, dirL, dirM, -, -, -, -, hal, hmm, -,
      -, -, hD, -⟩
  · exact Except.noConfusion he
  · simp only [Except.ok.injEq] at hD
    obtain ⟨new, hnew, hall⟩ := addLayers_ok env paths _ [] layers dirL hal
    simp only [List.nil_append] at hnew
    subst hnew
    exact ⟨artifactManifestOf layers, rawData, hmm, hD, hall.length_eq.symm, hall, rfl, rfl⟩

/-- C4 on the files `a.txt` and `b.txt`: the manifest has the two layers in that order. -/
theorem Add_manifest_layers_witness :
    ∃ dir', ArtifactStore.Add demoEnv 2 (demoDir [0]) "demo" ["/tmp/a.txt", "/tmp/b.txt"]
        = some (.ok "sha256:cc", dir') ∧
      ∃ (artifactManifest : Manifest) (rawData : Bytes),
        demoEnv.marshalManifest artifactManifest = .ok rawData ∧
        "sha256:cc" = demoEnv.digestFromBytes rawData ∧
        artifactManifest.layers.length = ["/tmp/a.txt", "/tmp/b.txt"].length ∧
        List.Forall₂ (layerOfPath demoEnv) ["/tmp/a.txt", "/tmp/b.txt"]
          artifactManifest.layers ∧
        artifactManifest.config = DescriptorEmptyJSON ∧
        artifactManifest.schemaVersion = 2 := by
  have hs : (ArtifactStore.Add demoEnv 2 (demoDir [0]) "demo"
      ["/tmp/a.txt", "/tmp/b.txt"]).isSome = true := rfl
  have hr : (ArtifactStore.Add demoEnv 2 (demoDir [0]) "demo"
      ["/tmp/a.txt", "/tmp/b.txt"]).map (fun p => p.1) = some (.ok "sha256:cc") := rfl
  obtain ⟨⟨r, dir'⟩, h⟩ := Option.isSome_iff_exists.mp hs
  rw [h] at hr
  have hr' : r = .ok "sha256:cc" := Option.some.inj hr
  subst hr'
  exact ⟨dir', h, Add_manifest_layers demoEnv 2 (demoDir [0]) "demo"
    ["/tmp/a.txt", "/tmp/b.txt"] "sha256:cc" dir' h⟩

/-! ### Add: commit at the index -/

theorem Add_returns (env : Env) (fuel : Nat) (dir : StoreDir) (dest : String)
    (paths : List String) (r0 : Except Error ArtifactList)
    (hr : getArtifacts env fuel dir = some r0) :
    ∃ r, ArtifactStore.Add env fuel dir dest paths = some r := by
  unfold ArtifactStore.Add
  rw [hr]
  by_cases hlen : dest.length = 0
  · rw [if_pos hlen]; exact ⟨_, rfl⟩
  · rw [if_neg hlen]
    cases r0 with
    | error err => exact ⟨_, rfl⟩
    | ok artifacts =>
      simp only
      cases GetByNameOrDigest env artifacts dest with
      | ok p => exact ⟨_, rfl⟩
      | error e =>
        simp only
        cases layout.NewReference env dest with
        | error err => exact ⟨_, rfl⟩
        | ok ref =>
          simp only
          cases layout.NewImageDestination env dir with
          | mk rd dirD =>
            cases rd with
            | error err => exact ⟨_, rfl⟩
            | ok u =>
              simp only
              cases addLayers env dirD paths [] with
              | mk rl dirL =>
                cases rl with
                | error err => exact ⟨_, rfl⟩
                | ok layers =>
                  simp only
                  cases env.marshalManifest (artifactManifestOf layers) with
                  | error err => exact ⟨_, rfl⟩
                  | ok rawData =>
                    simp only
                    cases layout.PutManifest env dirL rawData with
                    | mk rm dirM =>
                      cases rm with
                      | some err => exact ⟨_, rfl⟩
                      | none =>
                        simp only
                        cases readIndex env
                            (checkForEmptyStanzaFile env dirM (emptyStanzaKey env rawData)).2 with
                        | error err => exact ⟨_, rfl⟩
                        | ok storeIndex =>
                          simp only
                          cases writeIndex env
                              (checkForEmptyStanzaFile env dirM (emptyStanzaKey env rawData)).2
                              { storeIndex with manifests := storeIndex.manifests ++
                                [manifestDescriptorOf env dest rawData] } with
                          | mk werr dirW =>
                            cases werr with
                            | some err => exact ⟨_, rfl⟩
                            | none => exact ⟨_, rfl⟩

theorem same_index_same_names (env : Env) (dir dir' : StoreDir) (hi : dir'.index = dir.index)
    (fuel : Nat) (al al' : ArtifactList)
    (hl : getArtifacts env fuel dir = some (.ok al))
    (hl' : getArtifacts env fuel dir' = some (.ok al')) :
    al'.map (fun a => a.Name) = al.map (fun a => a.Name) := by
  obtain ⟨index, hr, hn⟩ := getArtifacts_names env fuel dir al hl
  obtain ⟨index', hr', hn'⟩ := getArtifacts_names env fuel dir' al' hl'
  rw [readIndex_congr env hi, hr] at hr'
  simp only [Except.ok.injEq] at hr'
  subst hr'
  rw [hn, hn']

/-- C5: `Add` commits at the index.  It returns whenever listing the store
returns.  The index file changes only in the final rewrite: after any return
it is as it was, or it is what `os.WriteFile` of the serialized index with the
entry appended left.  Once the checks before the first write have passed, a
failure of streaming a file, of encoding the manifest or of storing the
manifest is the error `Add` returns, with the index file as it was; and as
long as the index file is as it was, `List` (and with it `Inspect`) sees the
same names as before. -/
theorem Add_commits_at_index (env : Env) (fuel : Nat) (dir : StoreDir) (dest : String)
    (paths : List String) :
    (∀ r0, getArtifacts env fuel dir = some r0 →
      ∃ r, ArtifactStore.Add env fuel dir dest paths = some r) ∧
    (∀ r dir', ArtifactStore.Add env fuel dir dest paths = some (r, dir') →
      dir'.index = dir.index ∨
      ∃ storeIndex rawData raw, readIndex env dir = .ok storeIndex ∧
        env.marshalIndex { storeIndex with
          manifests := storeIndex.manifests ++ [manifestDescriptorOf env dest rawData] }
          = .ok raw ∧
        (dir'.index = some raw ∨
          dir'.index = failedWrite dir.index raw env.writeIndexWritten)) ∧
    (∀ artifacts e0 ref dirD,
      dest.length ≠ 0 →
      getArtifacts env fuel dir = some (.ok artifacts) →
      GetByNameOrDigest env artifacts dest = .error e0 →
      layout.NewReference env dest = .ok ref →
      layout.NewImageDestination env dir = (.ok (), dirD) →
      (∀ err dirL, addLayers env dirD paths [] = (.error err, dirL) →
        ArtifactStore.Add env fuel dir dest paths = some (.error err, dirL) ∧
        dirL.index = dir.index) ∧
      (∀ layers dirL err, addLayers env dirD paths [] = (.ok layers, dirL) →
        env.marshalManifest (artifactManifestOf layers) = .error err →
        ArtifactStore.Add env fuel dir dest paths = some (.error err, dirL) ∧
        dirL.index = dir.index) ∧
      (∀ layers dirL rawData err dirM, addLayers env dirD paths [] = (.ok layers, dirL) →
        env.marshalManifest (artifactManifestOf layers) = .ok rawData →
        layout.PutManifest env dirL rawData = (some err, dirM) →
        ArtifactStore.Add env fuel dir dest paths = some (.error err, dirM) ∧
        dirM.index = dir.index)) ∧
    (∀ dir', dir'.index = dir.index →
      ∀ fuel' al al', ArtifactStore.List env fuel' dir = some (.ok al) →
        ArtifactStore.List env fuel' dir' = some (.ok al') →
        al'.map (fun a => a.Name) = al.map (fun a => a.Name)) := by
  refine ⟨Add_returns env fuel dir dest paths, ?_, ?_, ?_⟩
  · intro r dir' h
    rcases Add_cases env fuel dir dest paths r dir' h with
      ⟨err, -, hi | ⟨_, _, storeIndex, rawData, raw, -, -, hri, hmi, hw, hi⟩⟩ |
      ⟨_, _, rawData, storeIndex, raw, _, _, -, -, -, -, -, -, -, hri, hmi, -, hd⟩
    · exact Or.inl hi
    · exact Or.inr ⟨storeIndex, rawData, raw, hri, hmi, Or.inr hi⟩
    · exact Or.inr ⟨storeIndex, rawData, raw, hri, hmi, Or.inl (by rw [hd])⟩
  · intro artifacts e0 ref dirD hlen hga hgb href hdest
    have hD : dirD.index = dir.index := by
      have := NewImageDestination_index env dir
      rw [hdest] at this
      exact this
    refine ⟨?_, ?_, ?_⟩
    · intro err dirL hal
      have hL := addLayers_index env paths dirD []
      rw [hal] at hL
      refine ⟨?_, hL.trans hD⟩
      unfold ArtifactStore.Add
      simp only [hlen, if_false, hga, hgb, href, hdest, hal]
    · intro layers dirL err hal hmm
      have hL := addLayers_index env paths dirD []
      rw [hal] at hL
      refine ⟨?_, hL.trans hD⟩
      unfold ArtifactStore.Add
      simp only [hlen, if_false, hga, hgb, href, hdest, hal, hmm]
    · intro layers dirL rawData err dirM hal hmm hpm
      have hL := addLayers_index env paths dirD []
      rw [hal] at hL
      have hM := PutManifest_index env dirL rawData
      rw [hpm] at hM
      refine ⟨?_, hM.trans (hL.trans hD)⟩
      unfold ArtifactStore.Add
      simp only [hlen, if_false, hga, hgb, href, hdest, hal, hmm, hpm]
  · intro dir' hi fuel' al al' hl hl'
    exact same_index_same_names env dir dir' hi fuel' al al' hl hl'

/-- C5 on a missing input file: streaming fails, `Add` returns that error, the
index file is unchanged and `List` shows the same names. -/
theorem Add_commits_at_index_witness :
    (ArtifactStore.Add demoEnv 2 (demoDir [1]) "other" ["/tmp/missing.txt"] =
      some (.error (.external "no such file or directory"), demoDir [1]) ∧
      (demoDir [1]).index = (demoDir [1]).index) ∧
    (∃ r, ArtifactStore.Add demoEnv 2 (demoDir [1]) "other" ["/tmp/missing.txt"] = some r) ∧
    [({ Manifests := [demoManifest], Name := "demo" } : Artifact)].map (fun a => a.Name) =
      [({ Manifests := [demoManifest], Name := "demo" } : Artifact)].map (fun a => a.Name) :=
  ⟨((Add_commits_at_index demoEnv 2 (demoDir [1]) "other" ["/tmp/missing.txt"]).2.2.1
      [{ Manifests := [demoManifest], Name := "demo" }] (.notFound "other")
      { image := "other", sourceIndex := -1 } (demoDir [1])
      (by decide) rfl rfl rfl rfl).1 _ _ rfl,
   (Add_commits_at_index demoEnv 2 (demoDir [1]) "other" ["/tmp/missing.txt"]).1 _ rfl,
   (Add_commits_at_index demoEnv 2 (demoDir [1]) "other" ["/tmp/missing.txt"]).2.2.2
      (demoDir [1]) rfl 2 _ _ rfl rfl⟩

/-! ### Add followed by Inspect -/

theorem PutManifest_ok (env : Env) (dirL dirM : StoreDir) (rawData : Bytes)
    (h : layout.PutManifest env dirL rawData = (none, dirM)) :
    ∃ key, layout.blobPath env (env.digestFromBytes rawData) = .ok key ∧
      dirM = dirL.writeBlob key rawData := by
  unfold layout.PutManifest at h
  cases hb : layout.blobPath env (env.digestFromBytes rawData) with
  | error err => simp [hb] at h
  | ok key =>
    rw [hb] at h
    simp only at h
    cases hw : env.writeBlobErr rawData with
    | some err => simp [hw] at h
    | none =>
      rw [hw] at h
      simp only [Prod.mk.injEq, true_and] at h
      exact ⟨key, rfl, h.symm⟩

theorem checkForEmptyStanzaFile_keeps (env : Env) (dir : StoreDir) (key : String × String) :
    blobsKept dir (checkForEmptyStanzaFile env dir key).2 := by
  intro k b hk
  unfold checkForEmptyStanzaFile
  cases hkey : dir.blobs key with
  | some b' => exact hk
  | none =>
    simp only
    cases env.writeBlobErr emptyStanza with
    | some err => exact hk
    | none =>
      simp only [StoreDir.writeBlob]
      have hne : k ≠ key := by
        intro heq
        rw [heq, hkey] at hk
        exact Option.noConfusion hk
      simp only [hne, if_false]
      exact hk

theorem getManifestsLoop_extends {f g : Option Digest → Option (List OCI1 × Option Error)}
    (hfg : ∀ d ms, f d = some (ms, none) → g d = some (ms, none)) :
    ∀ (ds : List Descriptor) (acc ms : List OCI1),
      getManifestsLoop f ds acc = some (ms, none) →
      getManifestsLoop g ds acc = some (ms, none) := by
  intro ds
  induction ds with
  | nil => intro acc ms h; simpa [getManifestsLoop] using h
  | cons m rest ih =>
    intro acc ms h
    unfold getManifestsLoop at h ⊢
    cases hf : f (some m.digest) with
    | none => simp [hf] at h
    | some p =>
      obtain ⟨iter, e⟩ := p
      rw [hf] at h
      cases e with
      | some err => simp at h
      | none =>
        rw [hfg _ _ hf]
        exact ih _ _ h

theorem getManifests_extends (env : Env) (imgSrc imgSrc' : ImageSource)
    (hext : sourceExtends imgSrc imgSrc') :
    ∀ (fuel : Nat) (d : Option Digest) (ms : List OCI1),
      getManifests env fuel imgSrc d = some (ms, none) →
      getManifests env fuel imgSrc' d = some (ms, none) := by
  intro fuel
  induction fuel with
  | zero => intro d ms h; simp [getManifests] at h
  | succ n ih =>
    intro d ms h
    rw [getManifests] at h ⊢
    cases hg : imgSrc.GetManifest d with
    | error err => simp [hg] at h
    | ok p =>
      obtain ⟨b, ty⟩ := p
      rw [hext _ _ hg]
      rw [hg] at h
      simp only at h ⊢
      by_cases hm : MIMETypeIsMultiImage ty = true
      · simp only [hm, Bool.not_true, Bool.false_eq_true, if_false] at h ⊢
        cases hd : env.OCI1IndexFromManifest b with
        | error err => simp [hd] at h
        | ok maniList =>
          rw [hd] at h
          exact getManifestsLoop_extends ih _ _ _ h
      · simp only [hm, Bool.not_false, if_true] at h ⊢
        exact h

theorem instanceMediaType_append (index : Index) (entry : Descriptor) (d : Digest) :
    layout.instanceMediaType { index with manifests := index.manifests ++ [entry] } d =
      match index.manifests.find? (fun md => md.digest == d) with
      | some md => md.mediaType
      | none => if entry.digest == d then entry.mediaType else "" := by
  unfold layout.instanceMediaType
  simp only [List.find?_append]
  cases index.manifests.find? (fun md => md.digest == d) with
  | some md => rfl
  | none =>
    by_cases hd : (entry.digest == d) = true
    · simp [List.find?, hd]
    · simp [List.find?, hd]

/-- A source opened after one entry was appended to the index serves every
manifest the source opened before served, with the same media type, provided
no blob was replaced and the bytes at the new entry's digest are guessed to
have the new entry's media type. -/
theorem layout_GetManifest_extends (env : Env) (dir dir' : StoreDir) (index : Index)
    (entry desc : Descriptor)
    (hkeep : blobsKept dir dir')
    (hty : entry.mediaType ≠ "")
    (hnew : ∀ key m, layout.blobPath env entry.digest = .ok key → dir.blobs key = some m →
      env.guessMIMEType m = entry.mediaType) :
    sourceExtends { GetManifest := layout.GetManifest env dir index desc }
      { GetManifest := layout.GetManifest env dir'
          { index with manifests := index.manifests ++ [entry] } desc } := by
  intro d r h
  cases d with
  | none =>
    simp only [layout.GetManifest] at h ⊢
    cases hb : layout.blobPath env desc.digest with
    | error err => rw [hb] at h; exact Except.noConfusion h
    | ok key =>
      rw [hb] at h
      simp only at h ⊢
      cases hk : dir.blobs key with
      | none => rw [hk] at h; exact Except.noConfusion h
      | some m =>
        rw [hk] at h
        rw [hkeep key m hk]
        exact h
  | some d =>
    simp only [layout.GetManifest] at h ⊢
    cases hb : layout.blobPath env d with
    | error err => rw [hb] at h; exact Except.noConfusion h
    | ok key =>
      rw [hb] at h
      simp only at h ⊢
      cases hk : dir.blobs key with
      | none => rw [hk] at h; exact Except.noConfusion h
      | some m =>
        rw [hk] at h
        rw [hkeep key m hk]
        simp only at h ⊢
        rw [← h, instanceMediaType_append]
        cases hf : index.manifests.find? (fun md => md.digest == d) with
        | some md =>
          have : layout.instanceMediaType index d = md.mediaType := by
            unfold layout.instanceMediaType
            rw [hf]
          rw [this]
        | none =>
          have hnone : layout.instanceMediaType index d = "" := by
            unfold layout.instanceMediaType
            rw [hf]
          rw [hnone]
          simp only [if_true]
          by_cases hd : (entry.digest == d) = true
          · have hde : entry.digest = d := eq_of_beq hd
            rw [if_pos hd, if_neg hty]
            rw [← hde] at hb
            rw [hnew key m hb hk]
          · rw [if_neg hd]
            simp only [if_true]

theorem listFrom_refs_named_or_indexed (env : Env) :
    ∀ (mds : List Descriptor) (i : Nat) (lrs : List layout.ListResult),
      layout.listFrom env i mds = .ok lrs →
      ∀ l ∈ lrs, ¬ (l.Reference.image = "" ∧ l.Reference.sourceIndex = -1) := by
  intro mds
  induction mds with
  | nil =>
    intro i lrs h l hl
    simp only [layout.listFrom, Except.ok.injEq] at h
    subst h
    simp at hl
  | cons md rest ih =>
    intro i lrs h l hl
    rw [layout.listFrom] at h
    split at h
    · simp at h
    · rename_i ref href
      split at h
      · simp at h
      · rename_i res hrest
        simp only [Except.ok.injEq] at h
        subst h
        rcases List.mem_cons.mp hl with rfl | hl'
        · obtain ⟨-, hr⟩ := newReference_ok env _ _ ref href
          rintro ⟨himg, hidx⟩
          rw [hr] at himg hidx
          simp only at himg hidx
          simp only [himg, if_true] at hidx
          omega
        · exact ih _ _ hrest l hl'

theorem findByRefName_append_left (image : String) (entry : Descriptor) :
    ∀ (mds : List Descriptor) (md : Descriptor),
      layout.findByRefName image mds = some md →
      layout.findByRefName image (mds ++ [entry]) = some md := by
  intro mds
  induction mds with
  | nil => intro md h; simp [layout.findByRefName] at h
  | cons m rest ih =>
    intro md h
    rw [List.cons_append, layout.findByRefName]
    rw [layout.findByRefName] at h
    split
    · rename_i hc; rw [if_pos hc] at h; exact h
    · rename_i hc; rw [if_neg hc] at h; exact ih _ h

theorem findByRefName_append_right (image : String) (entry : Descriptor)
    (hentry : entry.annotations.lookup AnnotationRefName = some image)
    (hty : entry.mediaType = MediaTypeImageManifest) :
    ∀ (mds : List Descriptor),
      (∀ md ∈ mds, md.annotations.lookup AnnotationRefName ≠ some image) →
      layout.findByRefName image (mds ++ [entry]) = some entry := by
  intro mds
  induction mds with
  | nil =>
    intro _
    simp [layout.findByRefName, hentry, hty]
  | cons m rest ih =>
    intro h
    rw [List.cons_append, layout.findByRefName]
    have hm := h m (List.mem_cons_self _ _)
    rw [if_neg (fun hc => hm hc.1)]
    exact ih (fun md hmd => h md (List.mem_cons_of_mem _ hmd))

theorem getManifestDescriptor_append (env : Env) (dir dir' : StoreDir) (index : Index)
    (entry : Descriptor) (ref : layout.Reference) (desc : Descriptor)
    (hidx : layout.getIndex env dir = .ok index)
    (hidx' : layout.getIndex env dir' =
      .ok { index with manifests := index.manifests ++ [entry] })
    (hnamed : ¬ (ref.image = "" ∧ ref.sourceIndex = -1))
    (h : layout.getManifestDescriptor env dir ref = .ok desc) :
    layout.getManifestDescriptor env dir' ref = .ok desc := by
  unfold layout.getManifestDescriptor at h ⊢
  rw [hidx] at h
  rw [hidx']
  simp only at h ⊢
  by_cases h1 : ref.image ≠ "" ∧ ref.sourceIndex ≠ -1
  · rw [if_pos h1] at h; exact Except.noConfusion h
  · rw [if_neg h1] at h ⊢
    by_cases h2 : ref.sourceIndex ≠ -1
    · rw [if_pos h2] at h ⊢
      cases hg : index.manifests.get? ref.sourceIndex.toNat with
      | none => rw [hg] at h; exact Except.noConfusion h
      | some md =>
        rw [hg] at h
        have hlt : ref.sourceIndex.toNat < index.manifests.length := by
          rw [List.get?_eq_some] at hg
          exact hg.1
        have : (index.manifests ++ [entry]).get? ref.sourceIndex.toNat = some md := by
          rw [List.get?_eq_getElem?] at hg ⊢
          rw [List.getElem?_append_left hlt]; exact hg
        rw [this]
        exact h
    · rw [if_neg h2] at h ⊢
      have himg : ref.image ≠ "" := fun hi => hnamed ⟨hi, not_not.mp h2⟩
      rw [if_neg himg] at h ⊢
      cases hf : layout.findByRefName ref.image index.manifests with
      | none => rw [hf] at h; exact Except.noConfusion h
      | some md =>
        rw [hf] at h
        rw [findByRefName_append_left ref.image entry _ md hf]
        exact h

theorem listFrom_append (env : Env) (entry : Descriptor) (name : String)
    (hname : entry.annotations.lookup AnnotationRefName = some name) (hne : name ≠ "")
    (hvalid : env.validImageName name = true) :
    ∀ (mds : List Descriptor) (i : Nat) (lrs : List layout.ListResult),
      layout.listFrom env i mds = .ok lrs →
      layout.listFrom env i (mds ++ [entry]) =
        .ok (lrs ++ [{ Reference := { image := name, sourceIndex := -1 },
                       ManifestDescriptor := entry }]) := by
  intro mds
  induction mds with
  | nil =>
    intro i lrs h
    simp only [layout.listFrom, Except.ok.injEq] at h
    subst h
    simp [layout.listFrom, hname, hne, layout.newReference, hvalid]
  | cons md rest ih =>
    intro i lrs h
    rw [List.cons_append, layout.listFrom]
    rw [layout.listFrom] at h
    split at h
    · simp at h
    · rename_i ref href
      split at h
      · simp at h
      · rename_i res hrest
        simp only [Except.ok.injEq] at h
        subst h
        simp only [href, ih _ _ hrest, List.cons_append]

theorem forall₂_imp_of_mem {α β : Type} {R S : α → β → Prop} {l₁ : List α} {l₂ : List β}
    (h : List.Forall₂ R l₁ l₂) (himp : ∀ a ∈ l₁, ∀ b, R a b → S a b) :
    List.Forall₂ S l₁ l₂ := by
  induction h with
  | nil => exact List.Forall₂.nil
  | cons hr _ ih =>
    exact List.Forall₂.cons (himp _ (List.mem_cons_self _ _) _ hr)
      (ih (fun a ha b hab => himp a (List.mem_cons_of_mem _ ha) b hab))

theorem resolvesTo_transfer (env : Env) (fuel : Nat) (dir dir' : StoreDir) (index : Index)
    (entry : Descriptor) (l : layout.ListResult) (a : Artifact)
    (hidx : layout.getIndex env dir = .ok index)
    (hidx' : layout.getIndex env dir' =
      .ok { index with manifests := index.manifests ++ [entry] })
    (hkeep : blobsKept dir dir')
    (hty : entry.mediaType ≠ "")
    (hnew : ∀ key m, layout.blobPath env entry.digest = .ok key → dir.blobs key = some m →
      env.guessMIMEType m = entry.mediaType)
    (hnamed : ¬ (l.Reference.image = "" ∧ l.Reference.sourceIndex = -1))
    (h : resolvesTo env fuel dir l a) :
    resolvesTo env (fuel + 1) dir' l a := by
  obtain ⟨imgSrc, hsrc, hgm, hn⟩ := h
  obtain ⟨index0, desc, hidx0, hdesc, rfl⟩ := NewImageSource_ok env dir _ imgSrc hsrc
  rw [hidx] at hidx0
  simp only [Except.ok.injEq] at hidx0
  subst hidx0
  have hdesc' := getManifestDescriptor_append env dir dir' index entry l.Reference desc
    hidx hidx' hnamed hdesc
  refine ⟨{ GetManifest := layout.GetManifest env dir'
              { index with manifests := index.manifests ++ [entry] } desc }, ?_, ?_, hn⟩
  · unfold layout.NewImageSource
    rw [hidx', hdesc']
  · exact getManifests_succ env _ fuel none _
      (getManifests_extends env _ _
        (layout_GetManifest_extends env dir dir' index entry desc hkeep hty hnew)
        fuel none _ hgm)

theorem layerTitles_of_paths (env : Env) {paths : List String} {layers : List Descriptor}
    (h : List.Forall₂ (layerOfPath env) paths layers) :
    layerTitles (artifactManifestOf layers) = paths.map (fun p => some (filepathBase p)) := by
  unfold layerTitles artifactManifestOf
  simp only
  induction h with
  | nil => rfl
  | cons hp _ ih =>
    obtain ⟨_, _, _, _, hl⟩ := hp
    subst hl
    simp only [List.map_cons, ih]
    simp [List.lookup]

theorem length_ne_zero_of_ne_empty (s : String) (h : s ≠ "") : s.length ≠ 0 := by
  intro h0
  apply h
  cases s with
  | mk data =>
    have : data = [] := List.length_eq_zero.mp h0
    subst this
    rfl

/-- After a successful `Add`, listing the directory (with one more level of
fuel) gives the artifacts listed before followed by the new one. -/
theorem Add_then_getArtifacts (env : Env) (fuel : Nat) (dir : StoreDir) (dest : String)
    (paths : List String) (D : Digest) (dir' : StoreDir)
    (hcodecI : ∀ i b, env.marshalIndex i = .ok b → env.unmarshalIndex b = .ok i)
    (hcodecM : ∀ m b, env.marshalManifest m = .ok b → env.OCI1FromManifest b = .ok m)
    (hguess : ∀ m b, env.marshalManifest m = .ok b → m.mediaType = MediaTypeImageManifest →
      env.guessMIMEType b = MediaTypeImageManifest)
    (hkeep : blobsKept dir dir')
    (h : ArtifactStore.Add env fuel dir dest paths = some (.ok D, dir')) :
    ∃ al layers rawData,
      getArtifacts env fuel dir = some (.ok al) ∧
      (∀ a ∈ al, a.Name ≠ dest) ∧
      List.Forall₂ (layerOfPath env) paths layers ∧
      env.marshalManifest (artifactManifestOf layers) = .ok rawData ∧
      D = env.digestFromBytes rawData ∧
      dest.length ≠ 0 ∧
      getArtifacts env (fuel + 1) dir' =
        some (.ok (al ++ [{ Manifests := [artifactManifestOf layers], Name := dest }])) := by
  rcases Add_cases env fuel dir dest paths _ dir' h with
    ⟨err, he, -⟩ | ⟨al, layers, rawData, storeIndex, raw, dirL, dirM, hlen, ⟨ref, href⟩, hga,
      ⟨e, hgb⟩, hal, hmm, hpm, hri, hmi, hD, hd⟩
  · exact Except.noConfusion he
  simp only [Except.ok.injEq] at hD
  obtain ⟨new, hnew, hall⟩ := addLayers_ok env paths _ [] layers dirL hal
  simp only [List.nil_append] at hnew
  subst hnew
  have habs := GetByNameOrDigest_name_absent env al dest e hgb
  obtain ⟨key, hkey, hdirM⟩ := PutManifest_ok env dirL dirM rawData hpm
  refine ⟨al, layers, rawData, hga, habs, hall, hmm, hD, hlen, ?_⟩
  -- the index before and after
  have hidx : layout.getIndex env dir = .ok storeIndex := hri
  have hidx' : layout.getIndex env dir' = .ok { storeIndex with
      manifests := storeIndex.manifests ++ [manifestDescriptorOf env dest rawData] } := by
    unfold layout.getIndex
    rw [hd]
    exact hcodecI _ _ hmi
  -- the entries listed before
  obtain ⟨index, lrs, hri', hl, -, hres⟩ := getArtifacts_ok env fuel dir al hga
  rw [hri] at hri'
  simp only [Except.ok.injEq] at hri'
  subst hri'
  have hlf : layout.listFrom env 0 storeIndex.manifests = .ok lrs := by
    unfold layout.ListLayout at hl
    rw [hidx] at hl
    exact hl
  have hdest : dest ≠ "" := by
    intro h0
    rw [h0] at hlen
    exact hlen rfl
  have hvalid : env.validImageName dest = true := (newReference_ok env dest (-1) ref href).1
  have hentry : (manifestDescriptorOf env dest rawData).annotations.lookup AnnotationRefName
      = some dest := by
    simp [manifestDescriptorOf, List.lookup]
  have hl' : layout.ListLayout env dir' =
      .ok (lrs ++ [{ Reference := { image := dest, sourceIndex := -1 },
                     ManifestDescriptor := manifestDescriptorOf env dest rawData }]) := by
    unfold layout.ListLayout
    rw [hidx']
    exact listFrom_append env _ dest hentry hdest hvalid _ 0 lrs hlf
  have hblob : dir'.blobs key = some rawData := by
    rw [hd]
    apply checkForEmptyStanzaFile_keeps env dirM (emptyStanzaKey env rawData) key rawData
    rw [hdirM]
    simp [StoreDir.writeBlob]
  -- the old entries resolve as before
  have hty : (manifestDescriptorOf env dest rawData).mediaType ≠ "" := by
    show MediaTypeImageManifest ≠ ""
    decide
  have hnewblob : ∀ key' m,
      layout.blobPath env (manifestDescriptorOf env dest rawData).digest = .ok key' →
      dir.blobs key' = some m →
      env.guessMIMEType m = (manifestDescriptorOf env dest rawData).mediaType := by
    intro key' m hk' hm
    have hk'' : layout.blobPath env (env.digestFromBytes rawData) = .ok key' := hk'
    rw [hkey] at hk''
    simp only [Except.ok.injEq] at hk''
    subst hk''
    have := hkeep key m hm
    rw [hblob] at this
    simp only [Option.some.injEq] at this
    subst this
    exact hguess _ _ hmm rfl
  have hold : List.Forall₂ (resolvesTo env (fuel + 1) dir') lrs al :=
    forall₂_imp_of_mem hres (fun l hlm a hla =>
      resolvesTo_transfer env fuel dir dir' storeIndex _ l a hidx hidx' hkeep hty hnewblob
        (listFrom_refs_named_or_indexed env _ 0 lrs hlf l hlm) hla)
  -- the new entry resolves to the manifest just written
  have hfresh := Add_name_fresh env fuel dir dest al storeIndex e hga hgb hri
  have hfind : layout.findByRefName dest
      (storeIndex.manifests ++ [manifestDescriptorOf env dest rawData]) =
      some (manifestDescriptorOf env dest rawData) := by
    apply findByRefName_append_right dest _ hentry rfl
    intro md hmd hlk
    exact hfresh (List.mem_filterMap.mpr ⟨md, hmd, hlk⟩)
  have hnew : resolvesTo env (fuel + 1) dir'
      { Reference := { image := dest, sourceIndex := -1 },
        ManifestDescriptor := manifestDescriptorOf env dest rawData }
      { Manifests := [artifactManifestOf layers], Name := dest } := by
    refine ⟨{ GetManifest := layout.GetManifest env dir'
                { storeIndex with
                  manifests := storeIndex.manifests ++ [manifestDescriptorOf env dest rawData] }
                (manifestDescriptorOf env dest rawData) }, ?_, ?_, ?_⟩
    · unfold layout.NewImageSource layout.getManifestDescriptor
      rw [hidx']
      simp only [hdest, hfind, ne_eq, not_true_eq_false, and_false, if_false, not_false_eq_true]
    · rw [getManifests]
      have hgm : layout.GetManifest env dir'
          { storeIndex with
            manifests := storeIndex.manifests ++ [manifestDescriptorOf env dest rawData] }
          (manifestDescriptorOf env dest rawData) none =
          .ok (rawData, MediaTypeImageManifest) := by
        simp only [layout.GetManifest]
        have hdg : (manifestDescriptorOf env dest rawData).digest = env.digestFromBytes rawData :=
          rfl
        have hmt : (manifestDescriptorOf env dest rawData).mediaType = MediaTypeImageManifest :=
          rfl
        have hne : ¬ (MediaTypeImageManifest = "") := by decide
        rw [hdg, hkey]
        simp only [hblob, hmt, hne, if_false]
      simp only [hgm]
      have hmulti : MIMETypeIsMultiImage MediaTypeImageManifest = false := by decide
      simp only [hmulti, Bool.not_false, if_true, hcodecM _ _ hmm, List.nil_append]
    · simp [manifestDescriptorOf, List.lookup, AnnotationRefName, AnnotatedName]
  have hall' : List.Forall₂ (resolvesTo env (fuel + 1) dir')
      (lrs ++ [{ Reference := { image := dest, sourceIndex := -1 },
                 ManifestDescriptor := manifestDescriptorOf env dest rawData }])
      (al ++ [{ Manifests := [artifactManifestOf layers], Name := dest }]) :=
    List.rel_append hold (List.Forall₂.cons hnew List.Forall₂.nil)
  unfold getArtifacts
  rw [hl']
  have := getArtifactsLoop_of_resolves env (fuel + 1) dir' hall' []
  simpa using this

/-- The example manifest codec reads back what it wrote. -/
theorem demoEnv_manifest_codec :
    ∀ m b, demoEnv.marshalManifest m = .ok b → demoEnv.OCI1FromManifest b = .ok m := by
  intro m b hm
  simp only [demoEnv] at hm ⊢
  split at hm
  · rename_i heq
    simp only [Except.ok.injEq] at hm
    subst hm
    rw [heq]
  · split at hm
    · rename_i heq
      simp only [Except.ok.injEq] at hm
      subst hm
      rw [heq]
    · exact Except.noConfusion hm

/-- The example guesser recognises the manifests the example codec writes. -/
theorem demoEnv_manifest_guess :
    ∀ m b, demoEnv.marshalManifest m = .ok b → m.mediaType = MediaTypeImageManifest →
      demoEnv.guessMIMEType b = MediaTypeImageManifest := by
  intro m b hm _
  simp only [demoEnv] at hm ⊢
  split at hm
  · simp only [Except.ok.injEq] at hm
    subst hm
    rfl
  · split at hm
    · simp only [Except.ok.injEq] at hm
      subst hm
      rfl
    · exact Except.noConfusion hm

/-- C6 (as amended): after a successful `Add(name, paths)` returning `D` (the
codecs reading back what they wrote, manifest bytes recognised as a manifest,
no blob overwritten with other bytes), `Inspect(name)` succeeds and returns an
artifact named `name` with exactly one leaf manifest whose layer titles are
the base filenames of the paths in order; and `Inspect(s)` returns the
identical artifact for every non-empty input `s` that designates the digest
`D`, provided no artifact listed before the call is named `s` or has a
manifest digest that `s` designates. -/
theorem Add_then_Inspect (env : Env) (fuel : Nat) (dir : StoreDir) (dest : String)
    (paths : List String) (D : Digest) (dir' : StoreDir) (s : String)
    (hcodecI : ∀ i b, env.marshalIndex i = .ok b → env.unmarshalIndex b = .ok i)
    (hcodecM : ∀ m b, env.marshalManifest m = .ok b → env.OCI1FromManifest b = .ok m)
    (hguess : ∀ m b, env.marshalManifest m = .ok b → m.mediaType = MediaTypeImageManifest →
      env.guessMIMEType b = MediaTypeImageManifest)
    (hkeep : blobsKept dir dir')
    (hs : s.length ≠ 0)
    (hmatch : env.digestMatches D s = true)
    (hfirst : ∀ al, ArtifactStore.List env fuel dir = some (.ok al) →
      ∀ x ∈ al, x.Name ≠ s ∧ x.hasDigest env s = false)
    (h : ArtifactStore.Add env fuel dir dest paths = some (.ok D, dir')) :
    ∃ m : Manifest,
      ArtifactStore.Inspect env (fuel + 1) dir' dest =
        some (.ok { Manifests := [m], Name := dest }) ∧
      layerTitles m = paths.map (fun p => some (filepathBase p)) ∧
      ArtifactStore.Inspect env (fuel + 1) dir' s =
        some (.ok { Manifests := [m], Name := dest }) := by
  obtain ⟨al, layers, rawData, hga, habs, hall, hmm, hD, hlen, hga'⟩ :=
    Add_then_getArtifacts env fuel dir dest paths D dir' hcodecI hcodecM hguess hkeep h
  have hnewdig : Artifact.hasDigest env
      { Manifests := [artifactManifestOf layers], Name := dest } s = true := by
    simp only [Artifact.hasDigest, Artifact.GetDigest, hmm]
    rw [← hD]
    exact hmatch
  have hnone : al.find? (fun a => a.Name == dest) = none := by
    rw [List.find?_eq_none]
    intro a ha
    simp [habs a ha]
  have hnoneS : al.find? (fun a => a.Name == s) = none := by
    rw [List.find?_eq_none]
    intro a ha
    simp [(hfirst al hga a ha).1]
  have hnoneD : al.find? (fun a => a.hasDigest env s) = none := by
    rw [List.find?_eq_none]
    intro a ha
    simp [(hfirst al hga a ha).2]
  refine ⟨artifactManifestOf layers, ?_, layerTitles_of_paths env hall, ?_⟩
  · unfold ArtifactStore.Inspect
    simp only [hlen, if_false, hga']
    unfold GetByNameOrDigest
    simp [List.find?_append, hnone]
  · unfold ArtifactStore.Inspect
    simp only [hs, if_false, hga']
    unfold GetByNameOrDigest
    by_cases hds : dest = s
    · simp [List.find?_append, hnoneS, hds]
    · simp [List.find?_append, hnoneS, hnoneD, hds, hnewdig]

/-- C6 on a fresh store: after adding `demo`, which returns `sha256:cc`,
inspecting by the name and by the hex digest `cc` both return the artifact
`demo` with the layers `a.txt`, `b.txt`. -/
theorem Add_then_Inspect_witness :
    ArtifactStore.Add demoEnv 2 demoEmptyDir "demo" ["/tmp/a.txt", "/tmp/b.txt"] =
      some (.ok "sha256:cc",
        dirAfterAdd demoEnv 2 demoEmptyDir "demo" ["/tmp/a.txt", "/tmp/b.txt"]) ∧
    demoEnv.digestMatches "sha256:cc" "cc" = true ∧
    ArtifactStore.List demoEnv 2 demoEmptyDir = some (.ok []) ∧
    ∃ m : Manifest,
      ArtifactStore.Inspect demoEnv 3
          (dirAfterAdd demoEnv 2 demoEmptyDir "demo" ["/tmp/a.txt", "/tmp/b.txt"]) "demo" =
        some (.ok { Manifests := [m], Name := "demo" }) ∧
      layerTitles m = [some "a.txt", some "b.txt"] ∧
      ArtifactStore.Inspect demoEnv 3
          (dirAfterAdd demoEnv 2 demoEmptyDir "demo" ["/tmp/a.txt", "/tmp/b.txt"]) "cc" =
        some (.ok { Manifests := [m], Name := "demo" }) :=
  ⟨rfl, rfl, rfl,
    Add_then_Inspect demoEnv 2 demoEmptyDir "demo" ["/tmp/a.txt", "/tmp/b.txt"] "sha256:cc"
      (dirAfterAdd demoEnv 2 demoEmptyDir "demo" ["/tmp/a.txt", "/tmp/b.txt"]) "cc"
      demoEnv_index_codec demoEnv_manifest_codec demoEnv_manifest_guess
      (fun k b hk => Option.noConfusion hk)
      (by decide) rfl
      (fun al hal x hx => by
        have hl : ArtifactStore.List demoEnv 2 demoEmptyDir = some (.ok []) := rfl
        rw [hl] at hal
        simp only [Option.some.injEq, Except.ok.injEq] at hal
        subst hal
        exact absurd hx (List.not_mem_nil x))
      rfl⟩

/-- C6 as stated fails: the store already holds `demo` with the same two files.
`Add` of `other` returns the digest `sha256:cc`, and inspecting by name returns
the artifact `other`; but inspecting by the returned digest finds nothing, and
inspecting by its hex part returns the artifact `demo`, listed first, which is
not the one just added. -/
theorem Add_then_Inspect_counterexample :
    ArtifactStore.Add demoEnv 2 (demoDir [1]) "other" ["/tmp/a.txt", "/tmp/b.txt"] =
      some (.ok "sha256:cc",
        dirAfterAdd demoEnv 2 (demoDir [1]) "other" ["/tmp/a.txt", "/tmp/b.txt"]) ∧
    ArtifactStore.Inspect demoEnv 2
        (dirAfterAdd demoEnv 2 (demoDir [1]) "other" ["/tmp/a.txt", "/tmp/b.txt"]) "other" =
      some (.ok { Manifests := [demoManifest], Name := "other" }) ∧
    ArtifactStore.Inspect demoEnv 2
        (dirAfterAdd demoEnv 2 (demoDir [1]) "other" ["/tmp/a.txt", "/tmp/b.txt"]) "sha256:cc" =
      some (.error (.notFound "sha256:cc")) ∧
    ArtifactStore.Inspect demoEnv 2
        (dirAfterAdd demoEnv 2 (demoDir [1]) "other" ["/tmp/a.txt", "/tmp/b.txt"]) "cc" =
      some (.ok { Manifests := [demoManifest], Name := "demo" }) :=
  ⟨rfl, rfl, rfl, rfl⟩

/-! ### Store construction: the existence check -/

/-- C11: the constructor drops an error of the existence check that is not
"does not exist".  On a path whose index file is absent and cannot be examined
(permission denied), `NewArtifactStore` returns a store without error, yet no
index file has been created and the error has not been returned. -/
theorem NewArtifactStore_swallows_stat_error :
    (NewArtifactStore demoEnvStatDenied noDir "/store").1 = .ok { storePath := "/store" } ∧
    (NewArtifactStore demoEnvStatDenied noDir "/store").2.index = none ∧
    (NewArtifactStore demoEnvStatDenied noDir "/store").2.present = true ∧
    demoEnvStatDenied.statIndexErr = some (.external "stat index.json: permission denied") :=
  ⟨rfl, rfl, rfl, rfl⟩

/-- C10: store construction does not always create the missing index.  On a
store directory that exists without an index file, with the existence check
failing otherwise than with "does not exist", `NewArtifactStore` returns a
store and leaves the directory as it was: no index file exists afterwards, so
no index with zero manifests can be read and `List` on the new store fails.
With the existence check working, the same call creates the empty index. -/
theorem NewArtifactStore_absent_index_not_created :
    indexlessDir.index = none ∧
    NewArtifactStore demoEnvStatDenied indexlessDir "/store" =
      (.ok { storePath := "/store" }, indexlessDir) ∧
    readIndex demoEnvStatDenied (NewArtifactStore demoEnvStatDenied indexlessDir "/store").2 =
      .error (.external "index.json: no such file or directory") ∧
    ArtifactStore.List demoEnvStatDenied 2
        (NewArtifactStore demoEnvStatDenied indexlessDir "/store").2 =
      some (.error (.external "index.json: no such file or directory")) ∧
    readIndex demoEnv (NewArtifactStore demoEnv indexlessDir "/store").2 =
      .ok (demoIndex []) :=
  ⟨rfl, rfl, rfl, rfl, rfl⟩

/-! ### Empty names -/

/-- C13: `Add`, `Remove` and `Inspect` called with the empty string return
`ErrEmptyArtifactName` and no result value, whatever the store holds, with no
fuel spent on resolving anything, and `Add` and `Remove` leave the store
directory (index file and blobs) exactly as it was. -/
theorem empty_name_rejected (env : Env)
    (DeleteImage : layout.Reference → StoreDir → Option Error × StoreDir)
    (fuel : Nat) (dir : StoreDir) (paths : List String) :
    ArtifactStore.Add env fuel dir "" paths = some (.error ErrEmptyArtifactName, dir) ∧
    ArtifactStore.Remove env DeleteImage fuel dir "" =
      some ((none, some ErrEmptyArtifactName), dir) ∧
    ArtifactStore.Inspect env fuel dir "" = some (.error ErrEmptyArtifactName) :=
  ⟨rfl, rfl, rfl⟩

/-! ### Termination of the resolver -/

/-- C14 (as amended): `getManifests` terminates on every source whose index
nesting is well founded, that is, on which some rank strictly decreases from
each index to each of its children: it returns within one call more than the
rank of the start.  Nothing bounds its recursion depth on another source. -/
theorem getManifests_terminates_when_well_founded (env : Env) (imgSrc : ImageSource)
    (startingDigest : Option Digest) (rank : Option Digest → Nat)
    (hrank : ∀ d c, c ∈ indexChildren env imgSrc d → rank (some c.digest) < rank d) :
    ∃ res, getManifests env (rank startingDigest + 1) imgSrc startingDigest = some res :=
  getManifests_returns_of_rank env imgSrc rank hrank _ startingDigest (Nat.lt_succ_self _)

/-- C14 on an index of two plain manifests: the resolution returns within two
calls. -/
theorem getManifests_terminates_when_well_founded_witness :
    (∀ d c, c ∈ indexChildren exEnv exTreeSource d → exRank (some c.digest) < exRank d) ∧
    ∃ res, getManifests exEnv (exRank none + 1) exTreeSource none = some res :=
  ⟨exRank_decreases,
   getManifests_terminates_when_well_founded exEnv exTreeSource none exRank exRank_decreases⟩

/-- C14 as stated fails: on a source whose index lists its own digest as a
child, `getManifests` returns for no amount of fuel. -/
theorem getManifests_unbounded_counterexample :
    exDesc "self" ∈ indexChildren exEnv exCyclicSource (some "self") ∧
    ¬ ∃ res, getManifestsReturns exEnv exCyclicSource none res := by
  refine ⟨by decide, ?_⟩
  rintro ⟨res, fuel, h⟩
  rw [(exCyclicSource_no_fuel fuel).1] at h
  exact Option.noConfusion h

/-! ### Decompressors -/

/-- C16: `newGzipDecompressor` is not total.  On a path that cannot be
stat'ed, `newGenericDecompressor` returns a nil decompressor and the error, and
`newGzipDecompressor` panics on the nil pointer instead of returning that
error; on a path that can be stat'ed it returns a decompressor. -/
theorem newGzipDecompressor_nil_dereference :
    newGenericDecompressor exStat "/tmp/missing.gz" =
      (none, some (.external "stat: no such file or directory")) ∧
    newGzipDecompressor exStat "/tmp/missing.gz" =
      .panicked "invalid memory address or nil pointer dereference" ∧
    newGzipDecompressor exStat "/tmp/disk.gz" =
      .returned (some { genericDecompressor :=
        { compressedFilePath := "/tmp/disk.gz", compressedFile := none,
          compressedFileInfo := some { size := 1024, mode := 420 } } }, none) :=
  ⟨rfl, rfl, rfl⟩

/-! ### Add: the empty-config blob -/

/-- C15: ensuring the empty-config blob is best effort inside `Add`.  When
every other step succeeds, `Add` returns the digest of the manifest bytes and
rewrites the index file with the entry appended, whatever
`checkForEmptyStanzaFile` returned: its error, if any, changes neither the
value returned nor the index written. -/
theorem Add_stanza_best_effort (env : Env) (fuel : Nat) (dir : StoreDir) (dest : String)
    (paths : List String) (artifacts : ArtifactList) (e0 : Error) (ref : layout.Reference)
    (dirD dirL dirM : StoreDir) (layers : List Descriptor) (rawData raw : Bytes)
    (storeIndex : Index) (stanzaErr : Option Error)
    (hlen : dest.length ≠ 0)
    (hga : getArtifacts env fuel dir = some (.ok artifacts))
    (hgb : GetByNameOrDigest env artifacts dest = .error e0)
    (href : layout.NewReference env dest = .ok ref)
    (hdest : layout.NewImageDestination env dir = (.ok (), dirD))
    (hal : addLayers env dirD paths [] = (.ok layers, dirL))
    (hmm : env.marshalManifest (artifactManifestOf layers) = .ok rawData)
    (hpm : layout.PutManifest env dirL rawData = (none, dirM))
    (hri : readIndex env dir = .ok storeIndex)
    (hmi : env.marshalIndex { storeIndex with
      manifests := storeIndex.manifests ++ [manifestDescriptorOf env dest rawData] } = .ok raw)
    (hw : env.writeIndexErr = none)
    (_hstanza : (checkForEmptyStanzaFile env dirM (emptyStanzaKey env rawData)).1 = stanzaErr) :
    ∃ dir', ArtifactStore.Add env fuel dir dest paths =
        some (.ok (env.digestFromBytes rawData), dir') ∧
      dir'.index = some raw := by
  have hD : dirD.index = dir.index := by
    have := NewImageDestination_index env dir
    rw [hdest] at this
    exact this
  have hL : dirL.index = dirD.index := by
    have := addLayers_index env paths dirD []
    rw [hal] at this
    exact this
  have hM : dirM.index = dirL.index := by
    have := PutManifest_index env dirL rawData
    rw [hpm] at this
    exact this
  have hS := checkForEmptyStanzaFile_index env dirM (emptyStanzaKey env rawData)
  have hri' : readIndex env (checkForEmptyStanzaFile env dirM (emptyStanzaKey env rawData)).2
      = .ok storeIndex := by
    rw [readIndex_congr env (hS.trans (hM.trans (hL.trans hD)))]
    exact hri
  refine ⟨{ (checkForEmptyStanzaFile env dirM (emptyStanzaKey env rawData)).2 with
            index := some raw }, ?_, rfl⟩
  unfold ArtifactStore.Add
  simp only [hlen, if_false, hga, hgb, href, hdest, hal, hmm, hpm, hri', writeIndex,
    writeIndexFile, hmi, hw]

/-- C15 on a fresh store, once with the empty-config blob written and once
with its write failing: `Add` returns the same digest and writes the same index. -/
theorem Add_stanza_best_effort_witness :
    (checkForEmptyStanzaFile demoEnv
      (layout.PutManifest demoEnv
        (addLayers demoEnv demoEmptyDir ["/tmp/a.txt", "/tmp/b.txt"] []).2 [20]).2
      (emptyStanzaKey demoEnv [20])).1 = none ∧
    (checkForEmptyStanzaFile demoEnvStanzaFails
      (layout.PutManifest demoEnvStanzaFails
        (addLayers demoEnvStanzaFails demoEmptyDir ["/tmp/a.txt", "/tmp/b.txt"] []).2 [20]).2
      (emptyStanzaKey demoEnvStanzaFails [20])).1 =
        some (.external "write: no space left on device") ∧
    (∃ dir', ArtifactStore.Add demoEnv 2 demoEmptyDir "demo" ["/tmp/a.txt", "/tmp/b.txt"] =
        some (.ok "sha256:cc", dir') ∧ dir'.index = some [1]) ∧
    (∃ dir', ArtifactStore.Add demoEnvStanzaFails 2 demoEmptyDir "demo"
        ["/tmp/a.txt", "/tmp/b.txt"] = some (.ok "sha256:cc", dir') ∧ dir'.index = some [1]) :=
  ⟨rfl, rfl,
   Add_stanza_best_effort demoEnv 2 demoEmptyDir "demo" ["/tmp/a.txt", "/tmp/b.txt"]
     [] (.notFound "demo") { image := "demo", sourceIndex := -1 } demoEmptyDir
     (addLayers demoEnv demoEmptyDir ["/tmp/a.txt", "/tmp/b.txt"] []).2
     (layout.PutManifest demoEnv
       (addLayers demoEnv demoEmptyDir ["/tmp/a.txt", "/tmp/b.txt"] []).2 [20]).2
     demoLayers [20] [1] (demoIndex []) none
     (by decide) rfl rfl rfl rfl rfl rfl rfl rfl rfl rfl rfl,
   Add_stanza_best_effort demoEnvStanzaFails 2 demoEmptyDir "demo" ["/tmp/a.txt", "/tmp/b.txt"]
     [] (.notFound "demo") { image := "demo", sourceIndex := -1 } demoEmptyDir
     (addLayers demoEnvStanzaFails demoEmptyDir ["/tmp/a.txt", "/tmp/b.txt"] []).2
     (layout.PutManifest demoEnvStanzaFails
       (addLayers demoEnvStanzaFails demoEmptyDir ["/tmp/a.txt", "/tmp/b.txt"] []).2 [20]).2
     demoLayers [20] [1] (demoIndex [])
     (some (.external "write: no space left on device"))
     (by decide) rfl rfl rfl rfl rfl rfl rfl rfl rfl rfl rfl⟩

/-! ### Remove -/

theorem listFrom_valid_names (env : Env) :
    ∀ (mds : List Descriptor) (i : Nat) (lrs : List layout.ListResult),
      layout.listFrom env i mds = .ok lrs →
      ∀ l ∈ lrs, env.validImageName
        ((l.ManifestDescriptor.annotations.lookup AnnotationRefName).getD "") = true := by
  intro mds
  induction mds with
  | nil =>
    intro i lrs h l hl
    simp only [layout.listFrom, Except.ok.injEq] at h
    subst h
    simp at hl
  | cons md rest ih =>
    intro i lrs h l hl
    rw [layout.listFrom] at h
    split at h
    · simp at h
    · rename_i ref href
      split at h
      · simp at h
      · rename_i res hrest
        simp only [Except.ok.injEq] at h
        subst h
        rcases List.mem_cons.mp hl with rfl | hl'
        · exact (newReference_ok env _ _ ref href).1
        · exact ih _ _ hrest l hl'

theorem forall₂_mem_right {α β : Type} {R : α → β → Prop} {l₁ : List α} {l₂ : List β}
    (h : List.Forall₂ R l₁ l₂) : ∀ b ∈ l₂, ∃ a ∈ l₁, R a b := by
  induction h with
  | nil => intro b hb; simp at hb
  | cons hr _ ih =>
    intro b hb
    rcases List.mem_cons.mp hb with rfl | hb'
    · exact ⟨_, List.mem_cons_self _ _, hr⟩
    · obtain ⟨a, ha, hab⟩ := ih b hb'
      exact ⟨a, List.mem_cons_of_mem _ ha, hab⟩

/-- Every artifact `getArtifacts` lists carries a name the layout accepts as
an image name. -/
theorem getArtifacts_valid_names (env : Env) (fuel : Nat) (dir : StoreDir) (al : ArtifactList)
    (h : getArtifacts env fuel dir = some (.ok al)) :
    ∀ A ∈ al, env.validImageName A.Name = true := by
  obtain ⟨index, lrs, hri, hl, -, hres⟩ := getArtifacts_ok env fuel dir al h
  have hlf : layout.listFrom env 0 index.manifests = .ok lrs := by
    unfold layout.ListLayout at hl
    have hidx : layout.getIndex env dir = .ok index := hri
    rw [hidx] at hl
    exact hl
  intro A hA
  obtain ⟨l, hlm, -, -, -, hn⟩ := forall₂_mem_right hres A hA
  rw [hn]
  exact listFrom_valid_names env _ 0 lrs hlf l hlm

/-- `Remove` on an input that names a listed artifact: the first artifact of
that name is the target. -/
theorem Remove_by_name (env : Env)
    (DeleteImage : layout.Reference → StoreDir → Option Error × StoreDir)
    (fuel : Nat) (dir : StoreDir) (name : String) (al : ArtifactList) (A : Artifact)
    (hlen : name.length ≠ 0)
    (hga : getArtifacts env fuel dir = some (.ok al))
    (hf : al.find? (fun a => a.Name == name) = some A) :
    A.Name = name ∧
    (∀ d, A.GetDigest env = .ok d →
      ArtifactStore.Remove env DeleteImage fuel dir name =
        some ((some d, (DeleteImage { image := name, sourceIndex := -1 } dir).1),
              (DeleteImage { image := name, sourceIndex := -1 } dir).2)) ∧
    (∀ e, A.GetDigest env = .error e →
      ArtifactStore.Remove env DeleteImage fuel dir name = some ((none, some e), dir)) := by
  have hn : A.Name = name :=
    eq_of_beq (List.find?_some (p := fun x : Artifact => x.Name == name) hf)
  have hvalid := getArtifacts_valid_names env fuel dir al hga A (List.mem_of_find?_eq_some hf)
  rw [hn] at hvalid
  have href : layout.NewReference env name = .ok { image := name, sourceIndex := -1 } := by
    unfold layout.NewReference layout.newReference
    rw [if_pos hvalid]
  refine ⟨hn, ?_, ?_⟩
  · intro d hdig
    unfold ArtifactStore.Remove GetByNameOrDigest
    simp only [hlen, if_false, hga, hf, Bool.false_eq_true, href, hdig]
  · intro e hdig
    unfold ArtifactStore.Remove GetByNameOrDigest
    simp only [hlen, if_false, hga, hf, Bool.false_eq_true, href, hdig]

/-- `Remove` on an input that names no listed artifact and designates the
manifest digest of one: the first such artifact is the target, and its name
replaces the input. -/
theorem Remove_by_digest (env : Env)
    (DeleteImage : layout.Reference → StoreDir → Option Error × StoreDir)
    (fuel : Nat) (dir : StoreDir) (name : String) (al : ArtifactList) (A : Artifact)
    (hlen : name.length ≠ 0)
    (hga : getArtifacts env fuel dir = some (.ok al))
    (hnone : al.find? (fun a => a.Name == name) = none)
    (hf : al.find? (fun a => a.hasDigest env name) = some A) :
    ∃ d, A.GetDigest env = .ok d ∧ env.digestMatches d name = true ∧
      ArtifactStore.Remove env DeleteImage fuel dir name =
        some ((some d, (DeleteImage { image := A.Name, sourceIndex := -1 } dir).1),
              (DeleteImage { image := A.Name, sourceIndex := -1 } dir).2) := by
  have hd : A.hasDigest env name = true :=
    List.find?_some (p := fun x : Artifact => x.hasDigest env name) hf
  have hvalid := getArtifacts_valid_names env fuel dir al hga A (List.mem_of_find?_eq_some hf)
  have href : layout.NewReference env A.Name = .ok { image := A.Name, sourceIndex := -1 } := by
    unfold layout.NewReference layout.newReference
    rw [if_pos hvalid]
  unfold Artifact.hasDigest at hd
  cases hdig : A.GetDigest env with
  | error e =>
    rw [hdig] at hd
    exact Bool.noConfusion hd
  | ok d =>
    rw [hdig] at hd
    refine ⟨d, rfl, hd, ?_⟩
    unfold ArtifactStore.Remove GetByNameOrDigest
    simp only [hlen, if_false, hga, hnone, hf, if_true, href, hdig]

/-- C12 (as amended): `Remove` accepts a name or an input designating a
manifest digest.  An input that is the name of a listed artifact targets the
first artifact of that name: `Remove` returns its manifest digest and calls
`DeleteImage` on the reference of that name, or, when the digest cannot be
computed, returns that error with no digest and deletes nothing.  An input
that names no artifact and designates the manifest digest of one targets the
first such artifact in list order: `Remove` returns its digest and calls
`DeleteImage` on the reference named after it.  An input that resolves
neither way is reported not found, with no digest and no deletion.  Removing
by digest is removing by name when the artifact the digest selects is the
first of its name. -/
theorem Remove_targets_resolved_artifact (env : Env)
    (DeleteImage : layout.Reference → StoreDir → Option Error × StoreDir)
    (fuel : Nat) (dir : StoreDir) (name : String) (al : ArtifactList)
    (hlen : name.length ≠ 0)
    (hga : getArtifacts env fuel dir = some (.ok al)) :
    (∀ A, al.find? (fun a => a.Name == name) = some A →
      A.Name = name ∧
      (∀ d, A.GetDigest env = .ok d →
        ArtifactStore.Remove env DeleteImage fuel dir name =
          some ((some d, (DeleteImage { image := name, sourceIndex := -1 } dir).1),
                (DeleteImage { image := name, sourceIndex := -1 } dir).2)) ∧
      (∀ e, A.GetDigest env = .error e →
        ArtifactStore.Remove env DeleteImage fuel dir name = some ((none, some e), dir))) ∧
    (∀ A, al.find? (fun a => a.Name == name) = none →
      al.find? (fun a => a.hasDigest env name) = some A →
      ∃ d, A.GetDigest env = .ok d ∧ env.digestMatches d name = true ∧
        ArtifactStore.Remove env DeleteImage fuel dir name =
          some ((some d, (DeleteImage { image := A.Name, sourceIndex := -1 } dir).1),
                (DeleteImage { image := A.Name, sourceIndex := -1 } dir).2)) ∧
    (al.find? (fun a => a.Name == name) = none →
      al.find? (fun a => a.hasDigest env name) = none →
      ArtifactStore.Remove env DeleteImage fuel dir name =
        some ((none, some (.notFound name)), dir)) ∧
    (∀ A, al.find? (fun a => a.Name == name) = none →
      al.find? (fun a => a.hasDigest env name) = some A →
      A.Name.length ≠ 0 →
      al.find? (fun a => a.Name == A.Name) = some A →
      ArtifactStore.Remove env DeleteImage fuel dir name =
        ArtifactStore.Remove env DeleteImage fuel dir A.Name) := by
  refine ⟨fun A hf => Remove_by_name env DeleteImage fuel dir name al A hlen hga hf,
    fun A hnone hf => Remove_by_digest env DeleteImage fuel dir name al A hlen hga hnone hf,
    ?_, ?_⟩
  · intro hnone hnone'
    unfold ArtifactStore.Remove GetByNameOrDigest
    simp only [hlen, if_false, hga, hnone, hnone']
  · intro A hnone hf hlenA hfirst
    obtain ⟨d, hdig, -, hrem⟩ :=
      Remove_by_digest env DeleteImage fuel dir name al A hlen hga hnone hf
    rw [hrem]
    exact ((Remove_by_name env DeleteImage fuel dir A.Name al A hlenA hga hfirst).2.1
      d hdig).symm

/-- C12 on a store holding `demo` and `solo`: removing `solo` by its name and
by the hex digest `ee` return the same digest and leave the same store, which
holds `demo` alone; an input that resolves neither way is reported without
any deletion. -/
theorem Remove_targets_resolved_artifact_witness :
    ArtifactStore.Remove demoEnv demoDeleteImage 2 (demoDir [3]) "solo" =
      some ((some "sha256:ee", none), { demoDir [3] with index := some [1] }) ∧
    ArtifactStore.Remove demoEnv demoDeleteImage 2 (demoDir [3]) "ee" =
      ArtifactStore.Remove demoEnv demoDeleteImage 2 (demoDir [3]) "solo" ∧
    ArtifactStore.Remove demoEnv demoDeleteImage 2 (demoDir [3]) "nope" =
      some ((none, some (.notFound "nope")), demoDir [3]) :=
  ⟨((Remove_targets_resolved_artifact demoEnv demoDeleteImage 2 (demoDir [3]) "solo"
      [{ Manifests := [demoManifest], Name := "demo" },
       { Manifests := [soloManifest], Name := "solo" }] (by decide) rfl).1
      { Manifests := [soloManifest], Name := "solo" } rfl).2.1 "sha256:ee" rfl,
   (Remove_targets_resolved_artifact demoEnv demoDeleteImage 2 (demoDir [3]) "ee"
      [{ Manifests := [demoManifest], Name := "demo" },
       { Manifests := [soloManifest], Name := "solo" }] (by decide) rfl).2.2.2
      { Manifests := [soloManifest], Name := "solo" } rfl rfl (by decide) rfl,
   (Remove_targets_resolved_artifact demoEnv demoDeleteImage 2 (demoDir [3]) "nope"
      [{ Manifests := [demoManifest], Name := "demo" },
       { Manifests := [soloManifest], Name := "solo" }] (by decide) rfl).2.2.1 rfl rfl⟩

/-- C12 as stated fails: the store holds `demo` and `other`, made of the same
two files, so both have the manifest digest `sha256:cc`.  `Remove` by the name
`other` drops the entry `other` and leaves `demo`; `Remove` by the hex digest
of `other` returns the same digest but drops the entry `demo` and leaves
`other`; and `Remove` by the digest in the form `Add` returned it finds
nothing. -/
theorem Remove_same_entry_counterexample :
    ArtifactStore.List demoEnv 2 (demoDir [2]) =
      some (.ok [{ Manifests := [demoManifest], Name := "demo" },
                 { Manifests := [demoManifest], Name := "other" }]) ∧
    ArtifactStore.Remove demoEnv demoDeleteImage 2 (demoDir [2]) "other" =
      some ((some "sha256:cc", none), { demoDir [2] with index := some [1] }) ∧
    ArtifactStore.Remove demoEnv demoDeleteImage 2 (demoDir [2]) "cc" =
      some ((some "sha256:cc", none), { demoDir [2] with index := some [5] }) ∧
    demoEnv.unmarshalIndex [1] = .ok (demoIndex [demoEntry "demo"]) ∧
    demoEnv.unmarshalIndex [5] = .ok (demoIndex [demoEntry "other"]) ∧
    ArtifactStore.Remove demoEnv demoDeleteImage 2 (demoDir [2]) "sha256:cc" =
      some ((none, some (.notFound "sha256:cc")), demoDir [2]) :=
  ⟨rfl, rfl, rfl, rfl, rfl, rfl⟩

end Podman
